import Mathlib

/-!
# Verification of the release-pilot Version & Release-State Resolution Engine

A shallow embedding of the core of release-pilot (a TypeScript release
automation action): label resolution, semantic-version transitions,
the cleanup/retention engine and the Cargo workspace-inheritance logic,
with theorems checking the natural-language specification against it.

Strings are modelled by Lean `String`; JS arrays by `List`; JS exceptions
by `Except String`; filesystem and subprocess effects by explicit oracle
parameters.  Each definition is a direct translation of the corresponding
TypeScript function (named after it where possible).
-/

namespace ReleasePilot

/-! ## String utilities

`leadsWith pat l` is `pat.isPrefixOf l` on character lists; `hasSub pat l`
is JavaScript's `String.prototype.includes` (substring containment);
`containsSub s pat` wraps it on `String`. -/

def leadsWith : List Char → List Char → Bool
  | [], _ => true
  | _ :: _, [] => false
  | c :: cs, d :: ds => c == d && leadsWith cs ds

def hasSub (pat : List Char) : List Char → Bool
  | [] => pat.isEmpty
  | d :: ds => leadsWith pat (d :: ds) || hasSub pat ds

def containsSub (s pat : String) : Bool :=
  hasSub pat.data s.data

/-- Decimal digit character for `d < 10`. -/
def digitCh (d : Nat) : Char :=
  Char.ofNat (48 + d)

/-- Fuelled digit accumulator; the fuel `n + 1` always suffices since a
number has at most `n + 1` decimal digits. -/
def natCharsAux : Nat → Nat → List Char → List Char
  | 0, _, acc => acc
  | fuel + 1, n, acc =>
    if n < 10 then digitCh n :: acc
    else natCharsAux fuel (n / 10) (digitCh (n % 10) :: acc)

/-- Decimal rendering of a natural number as a character list
(the embedding of JavaScript number-to-string interpolation). -/
def natChars (n : Nat) : List Char :=
  natCharsAux (n + 1) n []

def natStr (n : Nat) : String :=
  ⟨natChars n⟩

/-! ## Label resolution (`src/github/labels.ts`) -/

/-- TS `BumpType`. -/
inductive BumpType where
  | major
  | minor
  | patch
deriving DecidableEq, Repr

/-- TS `PrereleaseType`. -/
inductive PrereleaseType where
  | alpha
  | beta
  | rc
deriving DecidableEq, Repr

/-- TS `LabelConfig`. -/
structure LabelConfig where
  major : String
  minor : String
  patch : String
  skip : String
  alpha : String
  beta : String
  rc : String
deriving DecidableEq, Repr

/-- TS `PullRequest` (number and label list). -/
structure PullRequest where
  number : Nat
  labels : List String
deriving DecidableEq, Repr

/-- TS `BumpTypeResult`. -/
structure BumpTypeResult where
  bumpType : Option BumpType
  skip : Bool
  prerelease : Option PrereleaseType
deriving DecidableEq, Repr

/-- The seven configured release labels (the `validLabels` set). -/
def validLabels (config : LabelConfig) : List String :=
  [config.major, config.minor, config.patch, config.skip,
   config.alpha, config.beta, config.rc]

/-- Adding one label to the accumulated set (JS `Set.add` guarded by
`validLabels.has`), keeping insertion order and uniqueness. -/
def addReleaseLabel (config : LabelConfig) (acc : List String) (label : String) :
    List String :=
  if (validLabels config).contains label && !acc.contains label then
    acc ++ [label]
  else
    acc

/-- TS `extractReleaseLabels` (`labels.ts` lines 74-104): collect the
release-relevant labels of all PRs into an insertion-ordered set, then
drop the skip label unless every PR carries it. -/
def extractReleaseLabels (prs : List PullRequest) (config : LabelConfig) :
    List String :=
  let releaseLabels :=
    prs.foldl (fun acc pr => pr.labels.foldl (addReleaseLabel config) acc) []
  if releaseLabels.contains config.skip && prs.length > 0 then
    let allPRsHaveSkip := prs.all (fun pr => pr.labels.contains config.skip)
    if !allPRsHaveSkip then
      releaseLabels.erase config.skip
    else
      releaseLabels
  else
    releaseLabels

/-- TS `getBumpTypeFromLabels` (`labels.ts` lines 120-147). -/
def getBumpTypeFromLabels (labels : List String) (config : LabelConfig) :
    BumpTypeResult :=
  if labels.contains config.skip then
    { bumpType := none, skip := true, prerelease := none }
  else
    let bumpType : Option BumpType :=
      if labels.contains config.major then some .major
      else if labels.contains config.minor then some .minor
      else if labels.contains config.patch then some .patch
      else none
    let prerelease : Option PrereleaseType :=
      if labels.contains config.rc then some .rc
      else if labels.contains config.beta then some .beta
      else if labels.contains config.alpha then some .alpha
      else none
    { bumpType := bumpType, skip := false, prerelease := prerelease }

/-- A concrete label configuration using the documented default label names. -/
def stdLabels : LabelConfig :=
  { major := "release:major", minor := "release:minor", patch := "release:patch",
    skip := "release:skip", alpha := "release:alpha", beta := "release:beta",
    rc := "release:rc" }

/-! ## Semantic versions (`src/core/version.ts`, backed by node-semver)

`semverParse` embeds `semver.parse` in strict mode: an optional leading
`v` after trimming, three dot-separated numeric components without leading
zeros and bounded by `Number.MAX_SAFE_INTEGER`, an optional dash-led
prerelease of dot-separated alphanumeric-or-hyphen identifiers (numeric
ones without leading zeros, turned into numbers when below the safe bound)
and an optional plus-led build suffix, with a 256-character length cap. -/

def maxSafeInteger : Nat := 9007199254740991

/-- JS whitespace for `String.prototype.trim` (ASCII part). -/
def isWsChar (c : Char) : Bool :=
  c == ' ' || c == '\t' || c == '\n' || c == '\r' ||
  c == Char.ofNat 11 || c == Char.ofNat 12

def trimWs (l : List Char) : List Char :=
  ((l.dropWhile isWsChar).reverse.dropWhile isWsChar).reverse

/-- `[0-9A-Za-z-]`, the character class of prerelease/build identifiers. -/
def isIdChar (c : Char) : Bool :=
  c.isAlphanum || c == '-'

def charsToNat (l : List Char) : Nat :=
  l.foldl (fun a c => a * 10 + (c.toNat - 48)) 0

/-- Split a character list on `'.'` (JS `String.prototype.split('.')`). -/
def splitOnDot : List Char → List (List Char)
  | [] => [[]]
  | c :: rest =>
    match splitOnDot rest with
    | [] => [[c]]
    | h :: t => if c == '.' then [] :: h :: t else (c :: h) :: t

/-- A prerelease identifier as stored by node-semver: numeric identifiers
below `MAX_SAFE_INTEGER` become numbers, everything else stays a string. -/
inductive PreId where
  | num (n : Nat)
  | str (s : String)
deriving DecidableEq, Repr

/-- Parse one numeric version component (`0|[1-9]\d*`, capped at
`MAX_SAFE_INTEGER`), returning the value and the remaining input. -/
def parseNumPart (l : List Char) : Option (Nat × List Char) :=
  let ds := l.takeWhile (·.isDigit)
  if ds.isEmpty then none
  else if ds.headD ' ' == '0' && ds.length > 1 then none
  else
    let n := charsToNat ds
    if n > maxSafeInteger then none
    else some (n, l.drop ds.length)

/-- Validate one prerelease identifier
(`0|[1-9]\d*|\d*[a-zA-Z-][a-zA-Z0-9-]*`). -/
def parsePreId (cs : List Char) : Option PreId :=
  if cs.isEmpty then none
  else if !(cs.all isIdChar) then none
  else if cs.all (·.isDigit) then
    if cs.headD ' ' == '0' && cs.length > 1 then none
    else if charsToNat cs < maxSafeInteger then some (.num (charsToNat cs))
    else some (.str ⟨cs⟩)
  else some (.str ⟨cs⟩)

/-- Validate one build identifier (`[0-9A-Za-z-]+`). -/
def parseBuildId (cs : List Char) : Option String :=
  if cs.isEmpty then none
  else if !(cs.all isIdChar) then none
  else some ⟨cs⟩

/-- The parsed form node-semver exposes as a `SemVer` object. -/
structure SemVerParsed where
  major : Nat
  minor : Nat
  patch : Nat
  pre : List PreId
  build : List String
deriving DecidableEq, Repr

/-- Embedding of `semver.parse` (strict mode); `none` is node's `null`. -/
def semverParse (version : String) : Option SemVerParsed :=
  if version.length > 256 then none
  else
    let t := trimWs version.data
    let t := match t with
      | 'v' :: rest => rest
      | _ => t
    match parseNumPart t with
    | none => none
    | some (major, l1) =>
      match l1 with
      | '.' :: l2 =>
        match parseNumPart l2 with
        | none => none
        | some (minor, l3) =>
          match l3 with
          | '.' :: l4 =>
            match parseNumPart l4 with
            | none => none
            | some (patch, l5) =>
              match l5 with
              | [] => some ⟨major, minor, patch, [], []⟩
              | '-' :: rest =>
                let preChunk := rest.takeWhile (fun c => c != '+')
                let after := rest.drop preChunk.length
                match (splitOnDot preChunk).mapM parsePreId with
                | none => none
                | some pre =>
                  match after with
                  | [] => some ⟨major, minor, patch, pre, []⟩
                  | '+' :: b =>
                    match (splitOnDot b).mapM parseBuildId with
                    | none => none
                    | some build => some ⟨major, minor, patch, pre, build⟩
                  | _ => none
              | '+' :: b =>
                match (splitOnDot b).mapM parseBuildId with
                | none => none
                | some build => some ⟨major, minor, patch, [], build⟩
              | _ => none
          | _ => none
      | _ => none

/-- Render `M.N.P` (the template literal in `bumpVersion` and friends). -/
def renderVer (major minor patch : Nat) : String :=
  ⟨natChars major ++ '.' :: natChars minor ++ '.' :: natChars patch⟩

/-- `semver.inc` on a bare `M.N.P` version: with no prerelease present the
prerelease-sensitive branches of node-semver's `inc` are vacuous and each
case is plain arithmetic. -/
def semverIncStable (major minor patch : Nat) : BumpType → Nat × Nat × Nat
  | .major => (major + 1, 0, 0)
  | .minor => (major, minor + 1, 0)
  | .patch => (major, minor, patch + 1)

/-- TS `bumpVersion` (`version.ts` lines 76-91): parse, strip to the clean
`major.minor.patch`, and increment that. `Except.error` is the thrown
`Error`. -/
def bumpVersion (version : String) (type : BumpType) : Except String String :=
  match semverParse version with
  | none => .error ("Invalid version: " ++ version)
  | some parsed =>
    let (M, N, P) := semverIncStable parsed.major parsed.minor parsed.patch type
    .ok (renderVer M N P)

/-- TS `createDevVersion` (`version.ts` lines 107-125).  The timestamp the
code derives from `new Date()` (a 14-digit `YYYYMMDDHHmmss` string) is
passed in as a natural number rendered in decimal. -/
def stripLeadingV (s : String) : String :=
  match s.data with
  | 'v' :: rest => ⟨rest⟩
  | _ => s

def createDevVersion (baseVersion : String) (suffix : String)
    (timestamp : Nat) : Except String String :=
  let cleanVersion := stripLeadingV baseVersion
  match semverParse cleanVersion with
  | none => .error ("Invalid version: " ++ baseVersion)
  | some parsed =>
    .ok ⟨natChars parsed.major ++ '.' :: natChars parsed.minor ++
        '.' :: natChars parsed.patch ++
        '-' :: (suffix.data ++ '.' :: natChars timestamp)⟩

/-- Three-way comparison of naturals (`a === b ? 0 : a < b ? -1 : 1`). -/
def cmpNat (a b : Nat) : Int :=
  if a == b then 0 else if a < b then -1 else 1

/-- Three-way lexicographic comparison of character lists (JS string
relational operators, code-unit order). -/
def cmpChars : List Char → List Char → Int
  | [], [] => 0
  | [], _ :: _ => -1
  | _ :: _, [] => 1
  | a :: as, b :: bs => if a == b then cmpChars as bs else if a < b then -1 else 1

/-- Is the identifier string all digits (`/^[0-9]+$/`)? -/
def isNumericStr (s : String) : Bool :=
  !s.data.isEmpty && s.data.all (·.isDigit)

/-- node-semver `compareIdentifiers`: numeric identifiers order below
alphanumeric ones and numerically among themselves, others by string
order.  (Numeric strings beyond the float-safe range are compared as
exact naturals here; JS compares them as doubles, which can only differ
on 17-digit-plus identifiers whose doubles collide.) -/
def compareIdentifiers : PreId → PreId → Int
  | .num a, .num b => cmpNat a b
  | .num a, .str s => if isNumericStr s then cmpNat a (charsToNat s.data) else -1
  | .str s, .num b => if isNumericStr s then cmpNat (charsToNat s.data) b else 1
  | .str s, .str t =>
    if isNumericStr s && isNumericStr t then cmpNat (charsToNat s.data) (charsToNat t.data)
    else cmpChars s.data t.data

/-- The element-wise loop inside node-semver `comparePre`. -/
def comparePreIds : List PreId → List PreId → Int
  | [], [] => 0
  | _ :: _, [] => 1
  | [], _ :: _ => -1
  | x :: xs, y :: ys =>
    if x == y then comparePreIds xs ys else compareIdentifiers x y

/-- node-semver `comparePre`: a version with a prerelease orders below the
bare version, then identifier-wise comparison. -/
def comparePre : List PreId → List PreId → Int
  | _ :: _, [] => -1
  | [], _ :: _ => 1
  | [], [] => 0
  | a, b => comparePreIds a b

/-- node-semver `compare` on parsed versions: numeric triple first, then
the prerelease rule (build metadata is ignored). -/
def semverCompare (a b : SemVerParsed) : Int :=
  let m := cmpNat a.major b.major
  if m != 0 then m
  else
    let n := cmpNat a.minor b.minor
    if n != 0 then n
    else
      let p := cmpNat a.patch b.patch
      if p != 0 then p
      else comparePre a.pre b.pre

/-- TS `compareVersions` (`version.ts` lines 192-194); `semver.compare`
throws on invalid input, modelled as `Except.error`. -/
def compareVersions (a b : String) : Except String Int :=
  match semverParse a, semverParse b with
  | some pa, some pb => .ok (semverCompare pa pb)
  | _, _ => .error "Invalid Version"

/-! ## Cleanup engine (`src/core/cleanup.ts`), pure parts -/

/-- TS `ReleaseType` in `cleanup.ts`. -/
inductive ReleaseType where
  | dev
  | alpha
  | beta
  | rc
  | stable
deriving DecidableEq, Repr

/-- TS `getReleaseType` (`cleanup.ts` lines 75-90): first marker substring
wins, in the order dev, alpha, beta, rc; otherwise stable. -/
def getReleaseType (version : String) : ReleaseType :=
  if containsSub version "-dev" then .dev
  else if containsSub version "-alpha" then .alpha
  else if containsSub version "-beta" then .beta
  else if containsSub version "-rc" then .rc
  else .stable

/-- TS `ReleaseInfo` (`github/client.ts`).  `publishedAt` is the instant
`new Date(r.publishedAt).getTime()` yields, modelled directly as the
millisecond count (ISO-8601 date strings map monotonically to it). -/
structure ReleaseInfo where
  id : Nat
  tagName : String
  publishedAt : Nat
  prerelease : Bool
deriving DecidableEq, Repr

/-- The inline pattern `tagName.startsWith(tagPre) ?
tagName.slice(tagPre.length) : tagName` used throughout `cleanup.ts`. -/
def stripTagPre (tagPre tag : String) : String :=
  if leadsWith tagPre.data tag.data then ⟨tag.data.drop tagPre.data.length⟩
  else tag

/-- The spec's `classify(versionOrTag, tagPrefix)`: the prefix strip of
`getReleasesToCleanup`/`getTagsForType` composed with `getReleaseType`. -/
def classify (versionOrTag tagPre : String) : ReleaseType :=
  getReleaseType (stripTagPre tagPre versionOrTag)

/-- One insertion step of the stable descending-by-`publishedAt` sort
(`[...].sort((a, b) => tb - ta)`; JS sort is stable). -/
def insertByPublishedDesc (x : ReleaseInfo) : List ReleaseInfo → List ReleaseInfo
  | [] => [x]
  | y :: ys =>
    if x.publishedAt < y.publishedAt then y :: insertByPublishedDesc x ys
    else x :: y :: ys

def sortByPublishedDesc (l : List ReleaseInfo) : List ReleaseInfo :=
  l.foldr insertByPublishedDesc []

/-- TS `getReleasesToCleanup` (`cleanup.ts` lines 111-137). -/
def getReleasesToCleanup (releases : List ReleaseInfo)
    (releaseType : ReleaseType) (tagPre : String) (keep : Nat) :
    List ReleaseInfo :=
  let matchingReleases := releases.filter
    (fun r => getReleaseType (stripTagPre tagPre r.tagName) == releaseType)
  let sorted := sortByPublishedDesc matchingReleases
  if keep == 0 || sorted.length ≤ keep then []
  else sorted.drop keep

/-- One insertion step of the stable ascending default string sort
(`[...].sort()`). -/
def insertStrAsc (x : String) : List String → List String
  | [] => [x]
  | y :: ys =>
    if cmpChars y.data x.data == -1 then y :: insertStrAsc x ys
    else x :: y :: ys

/-- TS `getTagsToCleanup` (`cleanup.ts` lines 179-189):
`[...tags].sort().reverse()` then keep the first `keep`. -/
def getTagsToCleanup (tags : List String) (keep : Nat) : List String :=
  if keep == 0 || tags.length ≤ keep then []
  else ((tags.foldr insertStrAsc []).reverse).drop keep

/-! ## Cargo ecosystem (`src/ecosystems/cargo.ts`)

The filesystem is modelled as a partial map from file paths (segment lists
rooted at `/`) to file contents; `path.dirname` is `List.dropLast` (with
the filesystem root `[]` its own parent, as in node).  The targeted
regexes of `cargo.ts` are embedded as explicit scanners with JS regex
semantics: leftmost match, greedy `[^[]*` gap (so the last matching
`version` line inside the bracket-free span wins). -/

abbrev FileSys := List String → Option String

def cargoManifestName : String := "Cargo.toml"

/-- TS `EcosystemContext` (the fields the Cargo paths-and-versions logic
reads; log sink and registry credentials are irrelevant here). -/
structure EcoCtx where
  path : List String
  versionFile : Option String
  dryRun : Bool

/-- `BaseFileEcosystem.getManifestPath`. -/
def getManifestPath (ctx : EcoCtx) : List String :=
  match ctx.versionFile with
  | some vf => ctx.path ++ [vf]
  | none => ctx.path ++ [cargoManifestName]

def dirParent (p : List String) : List String :=
  p.dropLast

def renderPath (p : List String) : String :=
  String.intercalate "/" p

/-- Matcher for the regex tail `\s*=\s*true`. -/
def matchEqTrue (l : List Char) : Bool :=
  match l.dropWhile isWsChar with
  | '=' :: rest => leadsWith "true".data (rest.dropWhile isWsChar)
  | _ => false

/-- Scan a bracket-free span for `version\.workspace\s*=\s*true` (the part
of the `usesWorkspaceInheritance` regex after `\[package\][^[]*`). -/
def scanVersionWorkspace : List Char → Bool
  | [] => false
  | c :: rest =>
    (leadsWith "version.workspace".data (c :: rest) &&
      matchEqTrue ((c :: rest).drop "version.workspace".data.length)) ||
    (c != '[' && scanVersionWorkspace rest)

/-- Existence of a match of `\[package\][^[]*version\.workspace\s*=\s*true`
(dotall), at any occurrence of the `[package]` literal. -/
def scanPkgInherit : List Char → Bool
  | [] => false
  | c :: rest =>
    (leadsWith "[package]".data (c :: rest) &&
      scanVersionWorkspace ((c :: rest).drop "[package]".data.length)) ||
    scanPkgInherit rest

/-- `CargoEcosystem.usesWorkspaceInheritance`: declares
`version.workspace = true` under `[package]` and is not itself the
workspace root. -/
def usesWorkspaceInheritance (content : String) : Bool :=
  scanPkgInherit content.data && !(containsSub content "[workspace.package]")

/-- Matcher for the regex tail `\n[ \t]*version\s*=\s*"([^"]+)"`, returning
the capture. -/
def matchVersionLine (l : List Char) : Option String :=
  match l with
  | '\n' :: rest =>
    let r1 := rest.dropWhile (fun c => c == ' ' || c == '\t')
    if leadsWith "version".data r1 then
      match (r1.drop "version".data.length).dropWhile isWsChar with
      | '=' :: r3 =>
        match r3.dropWhile isWsChar with
        | '"' :: r4 =>
          let v := r4.takeWhile (fun c => c != '"')
          if v.isEmpty then none
          else
            match r4.drop v.length with
            | '"' :: _ => some ⟨v⟩
            | _ => none
        | _ => none
      | _ => none
    else none
  | _ => none

/-- Greedy search for the version line inside one bracket-free span: the
regex gap `[^[]*` is greedy, so the last match position wins. -/
def greedyVersionLine : List Char → Option String
  | [] => none
  | c :: rest =>
    match (if c == '[' then none else greedyVersionLine rest) with
    | some v => some v
    | none => matchVersionLine (c :: rest)

/-- `CargoEcosystem.extractWorkspaceVersion`: first match of
`\[workspace\.package\][^[]*\n[ \t]*version\s*=\s*"([^"]+)"` (dotall). -/
def extractWsVersionGo : List Char → Option String
  | [] => none
  | c :: rest =>
    if leadsWith "[workspace.package]".data (c :: rest) then
      match greedyVersionLine ((c :: rest).drop "[workspace.package]".data.length) with
      | some v => some v
      | none => extractWsVersionGo rest
    else extractWsVersionGo rest

def extractWorkspaceVersion (content : String) : Option String :=
  extractWsVersionGo content.data

/-- Matcher for `\n[ \t]*version\s*=\s*"[^"]*"` at the head, used by the
replacing regexes: returns the group-1 tail (everything up to the opening
quote) and the remainder after the closing quote. -/
def matchVersionAssign (l : List Char) : Option (List Char × List Char) :=
  match l with
  | '\n' :: rest =>
    let ws1 := rest.takeWhile (fun c => c == ' ' || c == '\t')
    let r1 := rest.drop ws1.length
    if leadsWith "version".data r1 then
      let r2 := r1.drop "version".data.length
      let ws2 := r2.takeWhile isWsChar
      match r2.drop ws2.length with
      | '=' :: r3 =>
        let ws3 := r3.takeWhile isWsChar
        match r3.drop ws3.length with
        | '"' :: r4 =>
          let v := r4.takeWhile (fun c => c != '"')
          match r4.drop v.length with
          | '"' :: post =>
            some ('\n' :: (ws1 ++ "version".data ++ ws2 ++ '=' :: ws3), post)
          | _ => none
        | _ => none
      | _ => none
    else none
  | _ => none

/-- Greedy bracket-free-gap search for the replace regexes: returns the
consumed gap plus group 1, and the remainder after the closing quote. -/
def greedyVersionAssign : List Char → Option (List Char × List Char)
  | [] => none
  | c :: rest =>
    match (if c == '[' then none else greedyVersionAssign rest) with
    | some (g, post) => some (c :: g, post)
    | none => matchVersionAssign (c :: rest)

/-- First (leftmost) match of
`(\[header\][^[]*\n[ \t]*version\s*=\s*)"[^"]*"` replaced by
`$1"version"`; `none` when there is no match. -/
def replaceHeaderVersionGo (header : List Char) (version : String) :
    List Char → Option (List Char)
  | [] => none
  | c :: rest =>
    if leadsWith header (c :: rest) then
      match greedyVersionAssign ((c :: rest).drop header.length) with
      | some (g, post) =>
        some (header ++ g ++ '"' :: (version.data ++ '"' :: post))
      | none =>
        match replaceHeaderVersionGo header version rest with
        | some out => some (c :: out)
        | none => none
    else
      match replaceHeaderVersionGo header version rest with
      | some out => some (c :: out)
      | none => none

/-- JS `String.prototype.replace` with the version regexes: the original
content when there is no match. -/
def replaceHeaderVersion (header : String) (content version : String) : String :=
  match replaceHeaderVersionGo header.data version content.data with
  | some out => ⟨out⟩
  | none => content

/-- Split on a separator character (`String.prototype.split`). -/
def splitOnCh (sep : Char) : List Char → List (List Char)
  | [] => [[]]
  | c :: rest =>
    match splitOnCh sep rest with
    | [] => [[c]]
    | h :: t => if c == sep then [] :: h :: t else (c :: h) :: t

/-- `Array.prototype.join('\n')`. -/
def joinNl : List (List Char) → List Char
  | [] => []
  | [l] => l
  | l :: rest => l ++ '\n' :: joinNl rest

/-- Test for `key\s*=\s*"` anywhere in a line (the unanchored
`/path\s*=\s*"/` and `/version\s*=\s*"/` tests). -/
def scanKeyQuote (key : List Char) : List Char → Bool
  | [] => false
  | c :: rest =>
    (leadsWith key (c :: rest) &&
      (match ((c :: rest).drop key.length).dropWhile isWsChar with
       | '=' :: r =>
         match r.dropWhile isWsChar with
         | '"' :: _ => true
         | _ => false
       | _ => false)) ||
    scanKeyQuote key rest

/-- Complete match of `(version\s*=\s*)"[^"]*"` at the head of a line,
with the quoted part replaced. -/
def tryVersionAssignAt (version : String) (l : List Char) : Option (List Char) :=
  if leadsWith "version".data l then
    let r1 := l.drop "version".data.length
    let ws1 := r1.takeWhile isWsChar
    match r1.drop ws1.length with
    | '=' :: r2 =>
      let ws2 := r2.takeWhile isWsChar
      match r2.drop ws2.length with
      | '"' :: r3 =>
        let v := r3.takeWhile (fun c => c != '"')
        match r3.drop v.length with
        | '"' :: post =>
          some ("version".data ++ ws1 ++ '=' :: ws2 ++
            '"' :: (version.data ++ '"' :: post))
        | _ => none
      | _ => none
    | _ => none
  else none

/-- `line.replace(/(version\s*=\s*)"[^"]*"/, ...)`: first match only. -/
def replaceVersionInLineGo (version : String) : List Char → Option (List Char)
  | [] => none
  | c :: rest =>
    match tryVersionAssignAt version (c :: rest) with
    | some out => some out
    | none =>
      match replaceVersionInLineGo version rest with
      | some out => some (c :: out)
      | none => none

def replaceVersionInLine (version : String) (line : List Char) : List Char :=
  match replaceVersionInLineGo version line with
  | some out => out
  | none => line

/-- `CargoEcosystem.updateWorkspaceDependencyVersions`: walk the lines,
track `[workspace.dependencies]` sections, and rewrite the version of
single-line entries that carry both a `version` and a `path` field. -/
def updWsDepsGo (version : String) : List (List Char) → Bool → List (List Char)
  | [], _ => []
  | line :: rest, inWsDeps =>
    let trimmed := trimWs line
    if trimmed.headD ' ' == '[' then
      line :: updWsDepsGo version rest
        (trimmed == "[workspace.dependencies]".data)
    else if inWsDeps && scanKeyQuote "path".data line &&
        scanKeyQuote "version".data line then
      replaceVersionInLine version line :: updWsDepsGo version rest inWsDeps
    else
      line :: updWsDepsGo version rest inWsDeps

def updateWorkspaceDependencyVersions (content version : String) : String :=
  ⟨joinNl (updWsDepsGo version (splitOnCh '\n' content.data) false)⟩

/-- `CargoEcosystem.updateVersion` (workspace-aware variant): update
`[workspace.package]` version (plus local path-dependency pins) when the
file is a workspace root, otherwise the `[package]` version. -/
def cargoUpdateVersion (content version : String) : String :=
  if containsSub content "[workspace.package]" then
    updateWorkspaceDependencyVersions
      (replaceHeaderVersion "[workspace.package]" content version) version
  else
    replaceHeaderVersion "[package]" content version

/-- First match of `\[package\][^[]*\n[ \t]*version\s*=\s*"([^"]+)"`. -/
def extractPkgVersionGo : List Char → Option String
  | [] => none
  | c :: rest =>
    if leadsWith "[package]".data (c :: rest) then
      match greedyVersionLine ((c :: rest).drop "[package]".data.length) with
      | some v => some v
      | none => extractPkgVersionGo rest
    else extractPkgVersionGo rest

/-- `CargoEcosystem.extractPackageVersion`. -/
def extractPackageVersion (content : String) : Option String :=
  if usesWorkspaceInheritance content then extractWorkspaceVersion content
  else extractPkgVersionGo content.data

/-- `CargoEcosystem.parseVersion`. -/
def cargoParseVersion (content : String) : Option String :=
  match extractWorkspaceVersion content with
  | some v => some v
  | none => extractPackageVersion content

/-- `CargoEcosystem.findWorkspaceRoot`'s bounded walk (`for i in 0..9`). -/
def findWorkspaceRootGo (fs : FileSys) : Nat → List String → Option (List String)
  | 0, _ => none
  | fuel + 1, dir =>
    let candidate := dir ++ [cargoManifestName]
    let found := match fs candidate with
      | some content => containsSub content "[workspace.package]"
      | none => false
    if found then some candidate
    else
      let parent := dirParent dir
      if parent == dir then none
      else findWorkspaceRootGo fs fuel parent

/-- `CargoEcosystem.findWorkspaceRoot`: walk up at most 10 levels from the
parent of the member directory. -/
def findWorkspaceRoot (fs : FileSys) (memberPath : List String) :
    Option (List String) :=
  findWorkspaceRootGo fs 10 (dirParent memberPath)

/-- `CargoEcosystem.readVersion` (workspace-aware variant). -/
def cargoReadVersion (fs : FileSys) (ctx : EcoCtx) : Except String String :=
  let manifestPath := getManifestPath ctx
  match fs manifestPath with
  | none => .error ("Cargo.toml not found at " ++ renderPath manifestPath)
  | some content =>
    if usesWorkspaceInheritance content then
      match findWorkspaceRoot fs ctx.path with
      | none => .error ("Crate at " ++ renderPath ctx.path ++
          " uses version.workspace = true but no workspace root Cargo.toml found")
      | some rootPath =>
        match fs rootPath with
        | none => .error ("Cannot read " ++ renderPath rootPath)
        | some rootContent =>
          match extractWorkspaceVersion rootContent with
          | none => .error ("No version found in workspace root " ++
              renderPath rootPath)
          | some version => .ok version
    else
      match cargoParseVersion content with
      | none => .error ("No version found in " ++ renderPath manifestPath)
      | some version => .ok version

/-- Overwrite one file (`writeFileSync`). -/
def fsWrite (fs : FileSys) (p : List String) (content : String) : FileSys :=
  fun q => if q = p then some content else fs q

/-- `CargoEcosystem.writeVersion` (workspace-aware variant), returning the
updated filesystem; dry-run leaves it untouched. -/
def cargoWriteVersion (fs : FileSys) (ctx : EcoCtx) (version : String) :
    Except String FileSys :=
  if ctx.dryRun then .ok fs
  else
    let manifestPath := getManifestPath ctx
    match fs manifestPath with
    | none => .error ("Cannot read " ++ renderPath manifestPath)
    | some content =>
      if usesWorkspaceInheritance content then
        match findWorkspaceRoot fs ctx.path with
        | none => .error ("Crate at " ++ renderPath ctx.path ++
            " uses version.workspace = true but no workspace root Cargo.toml found")
        | some rootPath =>
          match fs rootPath with
          | none => .error ("Cannot read " ++ renderPath rootPath)
          | some rootContent =>
            .ok (fsWrite fs rootPath (cargoUpdateVersion rootContent version))
      else
        .ok (fsWrite fs manifestPath (cargoUpdateVersion content version))

/-- An example member manifest inheriting its version from the workspace. -/
def memberToml : String :=
  "[package]\nname = \"m\"\nversion.workspace = true\n"

/-- An example workspace root manifest declaring the shared version. -/
def rootToml : String :=
  "[workspace.package]\nversion = \"3.0.0\"\n"

/-- A two-file workspace: root at `/ws`, member at `/ws/member`. -/
def fsEx : FileSys := fun p =>
  if p = ["ws", "member", "Cargo.toml"] then some memberToml
  else if p = ["ws", "Cargo.toml"] then some rootToml
  else none

def ctxEx : EcoCtx :=
  { path := ["ws", "member"], versionFile := none, dryRun := false }

/-! ## Cleanup engine, effectful parts (`src/core/cleanup.ts`)

External operations (GitHub API, git subprocesses, registry unpublish) are
modelled as oracles supplied in a `CleanupEffects` record; a thrown JS
error is an `Except.error` outcome of the oracle.  The `options.log` info
sink is not modelled; the `options.warn` sink is: each function returns
its result together with the list of messages it passed to `warn`. -/

/-- TS `ResolvedCleanupTypeConfig` (`config/loader.ts`). -/
structure CleanupTypeConfig where
  tags : Bool
  releases : Bool
  published : Bool
  keep : Nat
deriving DecidableEq, Repr

/-- TS `ResolvedCleanupConfig`. -/
structure CleanupConfig where
  enabled : Bool
  dev : CleanupTypeConfig
  alpha : CleanupTypeConfig
  beta : CleanupTypeConfig
  rc : CleanupTypeConfig
  stable : CleanupTypeConfig
deriving DecidableEq, Repr

/-- TS `getCleanupConfigForType` (`cleanup.ts` lines 95-100). -/
def getCleanupConfigForType (config : CleanupConfig) :
    ReleaseType → CleanupTypeConfig
  | .dev => config.dev
  | .alpha => config.alpha
  | .beta => config.beta
  | .rc => config.rc
  | .stable => config.stable

/-- TS `CleanupResult`. -/
structure CleanupResult where
  tagsDeleted : Nat
  releasesDeleted : Nat
  packagesUnpublished : Nat
  warnings : List String
deriving DecidableEq, Repr

/-- TS `ResolvedPackageConfig`, the fields cleanup reads. -/
structure PkgConfig where
  name : String
  path : String
  ecosystem : String
  versionFile : Option String
deriving DecidableEq, Repr

/-- The `EcosystemContext` fields passed to `unpublish`. -/
structure UnpubCtx where
  path : String
  versionFile : Option String
  dryRun : Bool
deriving DecidableEq, Repr

/-- An ecosystem implementation as cleanup sees it: the
`supportsUnpublish` marker and the optional `unpublish` capability, the
latter an oracle for the external call (`.ok b` is the returned boolean,
`.error` a thrown error). -/
structure EcoImpl where
  supportsUnpublish : Bool
  unpublish : Option (UnpubCtx → String → Except String Bool)

/-- Oracles for every external operation cleanup performs.  `gitTags` is
the line list produced from `git tag -l` output
(`output.trim().split('\n').filter(Boolean)`). -/
structure CleanupEffects where
  deleteRelease : Nat → Except String Unit
  pushDeleteTag : String → Except String Unit
  localDeleteTag : String → Except String Unit
  gitTags : List String
  listReleases : List ReleaseInfo

/-- The `CleanupOptions` fields that drive control flow. -/
structure CleanupOpts where
  dryRun : Bool
  packages : Option (List PkgConfig)
  ecosystemRegistry : Option (String → Option EcoImpl)

/-- TS `getTagsForType` (`cleanup.ts` lines 147-170) applied to the
`git tag -l` oracle. -/
def getTagsForType (eff : CleanupEffects) (releaseType : ReleaseType)
    (tagPre : String) : List String :=
  eff.gitTags.filter
    (fun tag => getReleaseType (stripTagPre tagPre tag) == releaseType)

/-- TS `deleteTag` (`cleanup.ts` lines 197-218): returns the warn-sink
messages.  A remote-deletion failure is caught and warned; a
local-deletion failure is caught silently; the function itself never
throws. -/
def deleteTag (eff : CleanupEffects) (dryRun : Bool) (tag : String) :
    List String :=
  if dryRun then []
  else
    let w1 := match eff.pushDeleteTag tag with
      | .ok _ => []
      | .error _ => ["Failed to delete remote tag " ++ tag ++ " (may not exist)"]
    let _ := eff.localDeleteTag tag
    w1

/-- TS `getUnsupportedUnpublishMessage` (`cleanup.ts` lines 353-366). -/
def getUnsupportedUnpublishMessage (ecosystem : String) : String :=
  match ecosystem with
  | "cargo" =>
    "Cargo (crates.io) does not support unpublishing. Use `cargo yank` to mark versions as unusable."
  | "go" =>
    "Go modules use git tags for versioning. Tag cleanup is handled separately."
  | "composer" =>
    "Packagist does not support programmatic package deletion."
  | "custom" =>
    "Custom ecosystems do not have a standard unpublish mechanism."
  | _ => "Ecosystem " ++ ecosystem ++ " does not support unpublishing."

/-- The `unsupportedEcosystems` literal in `cleanupReleaseType`. -/
def unsupportedEcosystems : List String :=
  ["cargo", "go", "composer", "custom"]

/-- The loop body over releases in the GitHub-release cleanup section of
`cleanupReleaseType`; the state is the `result` record plus the warn-sink
log. -/
def cleanupReleasesStep (eff : CleanupEffects) (dryRun : Bool)
    (acc : CleanupResult × List String) (release : ReleaseInfo) :
    CleanupResult × List String :=
  if dryRun then acc
  else
    match eff.deleteRelease release.id with
    | .ok _ =>
      ({ acc.1 with releasesDeleted := acc.1.releasesDeleted + 1 }, acc.2)
    | .error e =>
      let msg := "Failed to delete release " ++ release.tagName ++ ": " ++ e
      ({ acc.1 with warnings := acc.1.warnings ++ [msg] }, acc.2 ++ [msg])

/-- The loop body over tags in `cleanupReleaseType`: `deleteTag` never
throws (its failures are caught internally), so the surrounding catch is
dead code and the counter always increments. -/
def cleanupTagsStep (eff : CleanupEffects) (dryRun : Bool)
    (acc : CleanupResult × List String) (tag : String) :
    CleanupResult × List String :=
  let ws := deleteTag eff dryRun tag
  ({ acc.1 with tagsDeleted := acc.1.tagsDeleted + 1 }, acc.2 ++ ws)

/-- The loop body over packages inside the published-package cleanup
section of `cleanupReleaseType` (lines 301-343). -/
def unpubPkgStep (registry : String → Option EcoImpl) (dryRun : Bool)
    (releasesToDelete : List ReleaseInfo) (release : ReleaseInfo)
    (version : String) (acc : CleanupResult × List String)
    (pkg : PkgConfig) : CleanupResult × List String :=
  match registry pkg.ecosystem with
  | none => acc
  | some eco =>
    if !eco.supportsUnpublish || eco.unpublish.isNone then
      if unsupportedEcosystems.contains pkg.ecosystem then
        if releasesToDelete.indexOf release == 0 then
          let msg := getUnsupportedUnpublishMessage pkg.ecosystem
          ({ acc.1 with warnings := acc.1.warnings ++ [msg] }, acc.2 ++ [msg])
        else acc
      else acc
    else
      match eco.unpublish with
      | none => acc
      | some unpub =>
        match unpub ⟨pkg.path, pkg.versionFile, dryRun⟩ version with
        | .ok success =>
          if success then
            ({ acc.1 with
                packagesUnpublished := acc.1.packagesUnpublished + 1 }, acc.2)
          else acc
        | .error e =>
          let msg := "Failed to unpublish " ++ pkg.name ++ "@" ++ version ++
            ": " ++ e
          ({ acc.1 with warnings := acc.1.warnings ++ [msg] }, acc.2 ++ [msg])

/-- TS `cleanupReleaseType` (`cleanup.ts` lines 231-348). -/
def cleanupReleaseType (eff : CleanupEffects) (releases : List ReleaseInfo)
    (releaseType : ReleaseType) (config : CleanupTypeConfig)
    (tagPre : String) (opts : CleanupOpts) : CleanupResult × List String :=
  let result0 : CleanupResult × List String := (⟨0, 0, 0, []⟩, [])
  if !config.tags && !config.releases && !config.published then result0
  else
    let r1 :=
      if config.releases then
        (getReleasesToCleanup releases releaseType tagPre config.keep).foldl
          (cleanupReleasesStep eff opts.dryRun) result0
      else result0
    let r2 :=
      if config.tags then
        (getTagsToCleanup (getTagsForType eff releaseType tagPre)
          config.keep).foldl (cleanupTagsStep eff opts.dryRun) r1
      else r1
    if config.published then
      match opts.packages, opts.ecosystemRegistry with
      | some pkgs, some registry =>
        let releasesToDelete :=
          getReleasesToCleanup releases releaseType tagPre config.keep
        releasesToDelete.foldl
          (fun acc release =>
            pkgs.foldl
              (unpubPkgStep registry opts.dryRun releasesToDelete release
                (stripTagPre tagPre release.tagName)) acc)
          r2
      | _, _ => r2
    else r2

/-- TS `runCleanup` (`cleanup.ts` lines 377-439): one pass per release
type over the same release listing, results and warnings combined. -/
def runCleanup (eff : CleanupEffects) (config : CleanupConfig)
    (tagPre : String) (opts : CleanupOpts) : CleanupResult × List String :=
  if !config.enabled then (⟨0, 0, 0, []⟩, [])
  else
    let releases := eff.listReleases
    ([.dev, .alpha, .beta, .rc, .stable] : List ReleaseType).foldl
      (fun acc releaseType =>
        let r := cleanupReleaseType eff releases releaseType
          (getCleanupConfigForType config releaseType) tagPre opts
        (⟨acc.1.tagsDeleted + r.1.tagsDeleted,
          acc.1.releasesDeleted + r.1.releasesDeleted,
          acc.1.packagesUnpublished + r.1.packagesUnpublished,
          acc.1.warnings ++ r.1.warnings⟩, acc.2 ++ r.2))
      (⟨0, 0, 0, []⟩, [])

/-! ### Specification-side helpers describing cleanup outcomes -/

/-- The outcome of attempting to unpublish `pkg` at `version`, when the
capability is present. -/
def unpubOutcome (registry : String → Option EcoImpl) (dryRun : Bool)
    (version : String) (pkg : PkgConfig) : Option (Except String Bool) :=
  match registry pkg.ecosystem with
  | none => none
  | some eco =>
    match eco.unpublish with
    | none => none
    | some unpub => some (unpub ⟨pkg.path, pkg.versionFile, dryRun⟩ version)

def unpubSucceeds (registry : String → Option EcoImpl) (dryRun : Bool)
    (version : String) (pkg : PkgConfig) : Bool :=
  match unpubOutcome registry dryRun version pkg with
  | some (.ok true) => true
  | _ => false

def unpubFailMsg (registry : String → Option EcoImpl) (dryRun : Bool)
    (version : String) (pkg : PkgConfig) : Option String :=
  match unpubOutcome registry dryRun version pkg with
  | some (.error e) =>
    some ("Failed to unpublish " ++ pkg.name ++ "@" ++ version ++ ": " ++ e)
  | _ => none

def isOkExc (e : Except String Unit) : Bool :=
  match e with
  | .ok _ => true
  | .error _ => false

def relFailMsg (eff : CleanupEffects) (x : ReleaseInfo) : Option String :=
  match eff.deleteRelease x.id with
  | .ok _ => none
  | .error e => some ("Failed to delete release " ++ x.tagName ++ ": " ++ e)

def tagRemoteFailMsg (eff : CleanupEffects) (tag : String) : Option String :=
  match eff.pushDeleteTag tag with
  | .ok _ => none
  | .error _ =>
    some ("Failed to delete remote tag " ++ tag ++ " (may not exist)")

/-- Concrete effects for the C8 scenarios: deleting release id 0 and any
remote tag fails, everything else succeeds. -/
def effC8 : CleanupEffects where
  deleteRelease := fun i => if i == 0 then .error "boom" else .ok ()
  pushDeleteTag := fun _ => .error "exit 1"
  localDeleteTag := fun _ => .ok ()
  gitTags := ["v1.0.0-dev.1", "v1.0.0-dev.2"]
  listReleases := []

def relsC8 : List ReleaseInfo :=
  [⟨0, "v1.0.0", 0, false⟩, ⟨1, "v1.0.1", 1, false⟩, ⟨2, "v1.0.2", 2, false⟩]

/-- Concrete effects for the C9 scenarios: two stable and three dev
releases, all external deletions succeeding. -/
def effC9 : CleanupEffects where
  deleteRelease := fun _ => .ok ()
  pushDeleteTag := fun _ => .ok ()
  localDeleteTag := fun _ => .ok ()
  gitTags := []
  listReleases :=
    [⟨0, "v1.0.0", 0, false⟩, ⟨1, "v1.0.1", 1, false⟩,
     ⟨2, "v1.0.2-dev.1", 2, true⟩, ⟨3, "v1.0.3-dev.2", 3, true⟩]

/-- A registry exposing only the cargo ecosystem, which has no unpublish
capability. -/
def regC9 : String → Option EcoImpl := fun e =>
  if e == "cargo" then some ⟨false, none⟩ else none

/-- Published-artifact cleanup enabled for dev and stable, keeping one
release each. -/
def cfgC9 : CleanupConfig where
  enabled := true
  dev := ⟨false, false, true, 1⟩
  alpha := ⟨false, false, false, 0⟩
  beta := ⟨false, false, false, 0⟩
  rc := ⟨false, false, false, 0⟩
  stable := ⟨false, false, true, 1⟩

def pkgsC9 : List PkgConfig :=
  [⟨"mycrate", "crates/my", "cargo", none⟩]

def pkgs2C9 : List PkgConfig :=
  [⟨"a", "pa", "cargo", none⟩, ⟨"b", "pb", "cargo", none⟩]

/-- Three dev releases; with `keep = 1` two of them are selected. -/
def relsDevC9 : List ReleaseInfo :=
  [⟨2, "v1.0.2-dev.1", 2, true⟩, ⟨3, "v1.0.3-dev.2", 3, true⟩,
   ⟨4, "v1.0.4-dev.3", 4, true⟩]

/-! ### Lemmas about label extraction -/

theorem contains_iff_mem {α} [BEq α] [LawfulBEq α] {l : List α} {a : α} :
    l.contains a = true ↔ a ∈ l :=
  List.elem_iff

theorem contains_eq_false_iff {α} [BEq α] [LawfulBEq α] {l : List α} {a : α} :
    l.contains a = false ↔ a ∉ l := by
  rw [← Bool.not_eq_true, not_iff_not]
  exact contains_iff_mem

theorem mem_addReleaseLabel {config : LabelConfig} {acc : List String}
    {label x : String} :
    x ∈ addReleaseLabel config acc label ↔
      x ∈ acc ∨ (x = label ∧ label ∈ validLabels config) := by
  unfold addReleaseLabel
  split <;> rename_i h
  · simp only [Bool.and_eq_true, contains_iff_mem,
      Bool.not_eq_true', decide_eq_false_iff_not] at h
    simp only [List.mem_append, List.mem_singleton]
    constructor
    · rintro (hx | rfl)
      · exact Or.inl hx
      · exact Or.inr ⟨rfl, h.1⟩
    · rintro (hx | ⟨rfl, _⟩)
      · exact Or.inl hx
      · exact Or.inr rfl
  · constructor
    · exact Or.inl
    · rintro (hx | ⟨rfl, hv⟩)
      · exact hx
      · by_cases hm : x ∈ acc
        · exact hm
        · exact absurd (by
            simp [Bool.and_eq_true, contains_iff_mem, Bool.not_eq_true',
              contains_eq_false_iff, hv, hm]) h

theorem nodup_addReleaseLabel {config : LabelConfig} {acc : List String}
    (h : acc.Nodup) (label : String) :
    (addReleaseLabel config acc label).Nodup := by
  unfold addReleaseLabel
  split <;> rename_i hc
  · simp only [Bool.and_eq_true, contains_iff_mem,
      Bool.not_eq_true', decide_eq_false_iff_not] at hc
    simpa [List.nodup_append, h] using hc.2
  · exact h

theorem mem_foldl_addReleaseLabel {config : LabelConfig} :
    ∀ (ls : List String) (acc : List String) (x : String),
      x ∈ ls.foldl (addReleaseLabel config) acc ↔
        x ∈ acc ∨ (x ∈ ls ∧ x ∈ validLabels config)
  | [], acc, x => by simp
  | l :: ls, acc, x => by
    rw [List.foldl_cons, mem_foldl_addReleaseLabel ls]
    rw [mem_addReleaseLabel]
    constructor
    · rintro ((hx | ⟨rfl, hv⟩) | ⟨hmem, hv⟩)
      · exact Or.inl hx
      · exact Or.inr ⟨List.mem_cons_self _ _, hv⟩
      · exact Or.inr ⟨List.mem_cons_of_mem _ hmem, hv⟩
    · rintro (hx | ⟨hmem, hv⟩)
      · exact Or.inl (Or.inl hx)
      · rcases List.mem_cons.mp hmem with rfl | hmem
        · exact Or.inl (Or.inr ⟨rfl, hv⟩)
        · exact Or.inr ⟨hmem, hv⟩

theorem nodup_foldl_addReleaseLabel {config : LabelConfig} :
    ∀ (ls : List String) (acc : List String), acc.Nodup →
      (ls.foldl (addReleaseLabel config) acc).Nodup
  | [], _, h => h
  | _ :: ls, _, h =>
    nodup_foldl_addReleaseLabel ls _ (nodup_addReleaseLabel h _)

/-- Membership in the collected (pre-consensus) label set. -/
theorem mem_collectedLabels (config : LabelConfig) (prs : List PullRequest)
    (x : String) :
    x ∈ prs.foldl (fun acc pr => pr.labels.foldl (addReleaseLabel config) acc) [] ↔
      (∃ pr ∈ prs, x ∈ pr.labels) ∧ x ∈ validLabels config := by
  suffices h : ∀ (ps : List PullRequest) (acc : List String),
      x ∈ ps.foldl (fun acc pr => pr.labels.foldl (addReleaseLabel config) acc) acc ↔
        x ∈ acc ∨ ((∃ pr ∈ ps, x ∈ pr.labels) ∧ x ∈ validLabels config) by
    simpa using h prs []
  intro ps
  induction ps with
  | nil => simp
  | cons p ps ih =>
    intro acc
    rw [List.foldl_cons, ih, mem_foldl_addReleaseLabel]
    constructor
    · rintro ((hx | ⟨hl, hv⟩) | ⟨⟨pr, hpr, hl⟩, hv⟩)
      · exact Or.inl hx
      · exact Or.inr ⟨⟨p, List.mem_cons_self _ _, hl⟩, hv⟩
      · exact Or.inr ⟨⟨pr, List.mem_cons_of_mem _ hpr, hl⟩, hv⟩
    · rintro (hx | ⟨⟨pr, hpr, hl⟩, hv⟩)
      · exact Or.inl (Or.inl hx)
      · rcases List.mem_cons.mp hpr with rfl | hpr
        · exact Or.inl (Or.inr ⟨hl, hv⟩)
        · exact Or.inr ⟨⟨pr, hpr, hl⟩, hv⟩

theorem nodup_collectedLabels (config : LabelConfig) (prs : List PullRequest) :
    (prs.foldl (fun acc pr => pr.labels.foldl (addReleaseLabel config) acc)
      []).Nodup := by
  suffices h : ∀ (ps : List PullRequest) (acc : List String), acc.Nodup →
      (ps.foldl (fun acc pr => pr.labels.foldl (addReleaseLabel config) acc)
        acc).Nodup by
    exact h prs [] List.nodup_nil
  intro ps
  induction ps with
  | nil => exact fun _ h => h
  | cons p ps ih =>
    intro acc h
    exact ih _ (nodup_foldl_addReleaseLabel p.labels acc h)

/-- C1: for every non-empty batch of pull requests, `extractReleaseLabels`
includes the configured skip label in its result set if and only if every PR
in the batch carries the skip label; if even one PR lacks it, the skip label
is excluded even when other PRs carry it. -/
theorem claim_C1_skip_consensus (prs : List PullRequest) (config : LabelConfig)
    (hne : prs ≠ []) :
    config.skip ∈ extractReleaseLabels prs config ↔
      ∀ pr ∈ prs, config.skip ∈ pr.labels := by
  have hskip_valid : config.skip ∈ validLabels config := by
    simp [validLabels]
  have hL := mem_collectedLabels config prs
  have hnodup := nodup_collectedLabels config prs
  simp only [extractReleaseLabels]
  by_cases hall : ∀ pr ∈ prs, config.skip ∈ pr.labels
  · have hex : ∃ pr ∈ prs, config.skip ∈ pr.labels := by
      cases prs with
      | nil => exact absurd rfl hne
      | cons p ps => exact ⟨p, List.mem_cons_self _ _, hall p (List.mem_cons_self _ _)⟩
    have hmem : config.skip ∈
        prs.foldl (fun acc pr => pr.labels.foldl (addReleaseLabel config) acc) [] :=
      (hL _).mpr ⟨hex, hskip_valid⟩
    have hcond : (prs.foldl (fun acc pr => pr.labels.foldl (addReleaseLabel config) acc)
        []).contains config.skip && decide (prs.length > 0) := by
      simp only [Bool.and_eq_true, contains_iff_mem, decide_eq_true_eq]
      exact ⟨hmem, List.length_pos.mpr hne⟩
    rw [if_pos hcond]
    have hallb : prs.all (fun pr => pr.labels.contains config.skip) = true := by
      rw [List.all_eq_true]
      intro pr hpr
      exact contains_iff_mem.mpr (hall pr hpr)
    rw [hallb]
    simpa [hmem] using hall
  · have hrhs : ¬ ∀ pr ∈ prs, config.skip ∈ pr.labels := hall
    by_cases hmem : config.skip ∈
        prs.foldl (fun acc pr => pr.labels.foldl (addReleaseLabel config) acc) []
    · have hcond : (prs.foldl (fun acc pr => pr.labels.foldl (addReleaseLabel config) acc)
          []).contains config.skip && decide (prs.length > 0) := by
        simp only [Bool.and_eq_true, contains_iff_mem, decide_eq_true_eq]
        exact ⟨hmem, List.length_pos.mpr hne⟩
      rw [if_pos hcond]
      have hallb : prs.all (fun pr => pr.labels.contains config.skip) = false := by
        rw [← Bool.not_eq_true, List.all_eq_true]
        intro h
        exact hall fun pr hpr => contains_iff_mem.mp (h pr hpr)
      rw [hallb]
      simp only [Bool.not_false, if_pos]
      constructor
      · intro h
        exact absurd h (hnodup.not_mem_erase)
      · intro h
        exact absurd h hrhs
    · have hcond : ¬ ((prs.foldl (fun acc pr => pr.labels.foldl (addReleaseLabel config) acc)
          []).contains config.skip && decide (prs.length > 0)) = true := by
        simp only [Bool.and_eq_true, contains_iff_mem, decide_eq_true_eq, not_and]
        intro h
        exact absurd h hmem
      rw [if_neg hcond]
      constructor
      · intro h
        exact absurd h hmem
      · intro h
        exact absurd h hrhs

/-- Witness for C1: the batch `[{labels: [skip, minor]}, {labels: [patch]}]`
is non-empty, and the consensus equivalence holds on it (its right side is
false here since the second PR lacks the skip label). -/
theorem claim_C1_skip_consensus_witness :
    ([⟨1, ["release:skip", "release:minor"]⟩, ⟨2, ["release:patch"]⟩] :
        List PullRequest) ≠ [] ∧
    ("release:skip" ∈ extractReleaseLabels
        [⟨1, ["release:skip", "release:minor"]⟩, ⟨2, ["release:patch"]⟩] stdLabels ↔
      ∀ pr ∈ ([⟨1, ["release:skip", "release:minor"]⟩, ⟨2, ["release:patch"]⟩] :
          List PullRequest), "release:skip" ∈ pr.labels) :=
  ⟨by decide,
   claim_C1_skip_consensus
     [⟨1, ["release:skip", "release:minor"]⟩, ⟨2, ["release:patch"]⟩]
     stdLabels (by decide)⟩

/-- C3: `getBumpTypeFromLabels` returns `{bumpType := none, skip := true,
prerelease := none}` when the skip label is present; otherwise the bump type
is the highest-priority bump label present (major > minor > patch, `none` if
none present) and the prerelease channel is the highest-priority channel
label present (rc > beta > alpha, `none` if none present), independent of
the bump labels; `skip = true` forces both other fields to `none`. -/
theorem claim_C3_getBumpTypeFromLabels (labels : List String)
    (config : LabelConfig) (r : BumpTypeResult)
    (hr : r = getBumpTypeFromLabels labels config) :
    (config.skip ∈ labels →
        r = { bumpType := none, skip := true, prerelease := none }) ∧
    (r.skip = true ↔ config.skip ∈ labels) ∧
    (r.skip = true → r.bumpType = none ∧ r.prerelease = none) ∧
    (config.skip ∉ labels →
      (r.bumpType = some .major ↔ config.major ∈ labels) ∧
      (r.bumpType = some .minor ↔
        config.minor ∈ labels ∧ config.major ∉ labels) ∧
      (r.bumpType = some .patch ↔
        config.patch ∈ labels ∧ config.minor ∉ labels ∧ config.major ∉ labels) ∧
      (r.bumpType = none ↔
        config.major ∉ labels ∧ config.minor ∉ labels ∧ config.patch ∉ labels) ∧
      (r.prerelease = some .rc ↔ config.rc ∈ labels) ∧
      (r.prerelease = some .beta ↔
        config.beta ∈ labels ∧ config.rc ∉ labels) ∧
      (r.prerelease = some .alpha ↔
        config.alpha ∈ labels ∧ config.beta ∉ labels ∧ config.rc ∉ labels) ∧
      (r.prerelease = none ↔
        config.rc ∉ labels ∧ config.beta ∉ labels ∧ config.alpha ∉ labels)) := by
  subst hr
  simp only [getBumpTypeFromLabels]
  split_ifs with h1 h2 h3 h4 h5 h6 h7 <;>
    simp_all [contains_iff_mem, contains_eq_false_iff, Bool.not_eq_true]

/-- Witness for C3: with the default labels,
`resolveBump(['release:patch','release:minor','release:major']).bumpType
= major` and `resolveBump(['release:rc','release:alpha']).prerelease = rc`. -/
theorem claim_C3_getBumpTypeFromLabels_witness :
    (getBumpTypeFromLabels ["release:patch", "release:minor", "release:major"]
        stdLabels).bumpType = some .major ∧
    (getBumpTypeFromLabels ["release:rc", "release:alpha"]
        stdLabels).prerelease = some .rc := by
  constructor
  · exact ((claim_C3_getBumpTypeFromLabels
      ["release:patch", "release:minor", "release:major"] stdLabels _
      rfl).2.2.2 (by decide)).1.mpr (by decide)
  · exact ((claim_C3_getBumpTypeFromLabels
      ["release:rc", "release:alpha"] stdLabels _
      rfl).2.2.2 (by decide)).2.2.2.2.1.mpr (by decide)

/-! ### Lemmas about decimal rendering and substring search -/

theorem digitCh_isDigit {d : Nat} (h : d < 10) : (digitCh d).isDigit = true := by
  interval_cases d <;> decide

theorem isDigit_of_mem_natCharsAux :
    ∀ (fuel n : Nat) (acc : List Char), (∀ c ∈ acc, c.isDigit = true) →
      ∀ c ∈ natCharsAux fuel n acc, c.isDigit = true := by
  intro fuel
  induction fuel with
  | zero => exact fun n acc h => h
  | succ fuel ih =>
    intro n acc hacc c hc
    rw [natCharsAux] at hc
    split at hc
    · rename_i h
      rcases List.mem_cons.mp hc with rfl | hc
      · exact digitCh_isDigit h
      · exact hacc c hc
    · refine ih (n / 10) _ ?_ c hc
      intro d hd
      rcases List.mem_cons.mp hd with rfl | hd
      · exact digitCh_isDigit (Nat.mod_lt _ (by omega))
      · exact hacc d hd

theorem isDigit_of_mem_natChars (n : Nat) : ∀ c ∈ natChars n, c.isDigit = true :=
  isDigit_of_mem_natCharsAux (n + 1) n [] (by simp)

theorem dash_not_mem_natChars (n : Nat) : '-' ∉ natChars n := by
  intro h
  have := isDigit_of_mem_natChars n '-' h
  simp [Char.isDigit] at this

theorem hasSub_dash_eq_false (q : List Char) :
    ∀ (l : List Char), '-' ∉ l → hasSub ('-' :: q) l = false := by
  intro l
  induction l with
  | nil => intro _; rfl
  | cons d ds ih =>
    intro h
    have hd : ¬ '-' = d := fun he => h (he ▸ List.mem_cons_self d ds)
    have hds : '-' ∉ ds := fun hm => h (List.mem_cons_of_mem _ hm)
    rw [hasSub, leadsWith, ih hds]
    simp [beq_iff_eq, hd]

theorem hasSub_dash (q B : List Char) (hB : '-' ∉ B) :
    ∀ (A : List Char), '-' ∉ A →
      hasSub ('-' :: q) (A ++ '-' :: B) = leadsWith q B := by
  intro A
  induction A with
  | nil =>
    intro _
    rw [List.nil_append, hasSub, leadsWith, hasSub_dash_eq_false q B hB]
    simp
  | cons a A ih =>
    intro h
    have ha : ¬ '-' = a := fun he => h (he ▸ List.mem_cons_self a A)
    have hA : '-' ∉ A := fun hm => h (List.mem_cons_of_mem _ hm)
    rw [List.cons_append, hasSub, leadsWith, ih hA]
    simp [beq_iff_eq, ha]

/-! ### Theorems about the version transition engine -/

/-- C4: for every version string accepted by the parser (any prerelease or
build suffix included), `bumpVersion` discards the prerelease/build
components and bumps the bare numeric triple: major gives `(M+1).0.0`,
minor gives `M.(N+1).0`, patch gives `M.N.(P+1)`. -/
theorem claim_C4_bumpVersion (v : String) (p : SemVerParsed)
    (h : semverParse v = some p) :
    bumpVersion v .major = .ok (renderVer (p.major + 1) 0 0) ∧
    bumpVersion v .minor = .ok (renderVer p.major (p.minor + 1) 0) ∧
    bumpVersion v .patch = .ok (renderVer p.major p.minor (p.patch + 1)) := by
  unfold bumpVersion
  rw [h]
  exact ⟨rfl, rfl, rfl⟩

/-- Witness for C4 at `1.2.3-dev.abc+b.1`: the prerelease and build parts
are discarded and the major bump yields `2.0.0`. -/
theorem claim_C4_bumpVersion_witness :
    semverParse "1.2.3-dev.abc+b.1" =
      some ⟨1, 2, 3, [.str "dev", .str "abc"], ["b", "1"]⟩ ∧
    bumpVersion "1.2.3-dev.abc+b.1" .major = .ok "2.0.0" := by
  have hp : semverParse "1.2.3-dev.abc+b.1" =
      some ⟨1, 2, 3, [.str "dev", .str "abc"], ["b", "1"]⟩ := by decide
  refine ⟨hp, ?_⟩
  rw [(claim_C4_bumpVersion _ _ hp).1]
  show Except.ok (renderVer 2 0 0) = Except.ok "2.0.0"
  rw [show renderVer 2 0 0 = "2.0.0" by decide]

/-- C7: for every pair of parseable versions sharing the numeric triple
where the first has no prerelease component and the second has one,
`compareVersions` returns 1 (stable orders strictly above prerelease). -/
theorem claim_C7_stable_above_prerelease (a b : String) (pa pb : SemVerParsed)
    (ha : semverParse a = some pa) (hb : semverParse b = some pb)
    (h1 : pa.major = pb.major) (h2 : pa.minor = pb.minor)
    (h3 : pa.patch = pb.patch) (hpa : pa.pre = []) (hpb : pb.pre ≠ []) :
    compareVersions a b = .ok 1 := by
  have hcv : compareVersions a b = .ok (semverCompare pa pb) := by
    unfold compareVersions
    rw [ha, hb]
  rw [hcv]
  suffices hs : semverCompare pa pb = 1 by rw [hs]
  unfold semverCompare
  rw [h1, h2, h3, hpa]
  simp only [cmpNat, beq_self_eq_true, if_true]
  cases hx : pb.pre with
  | nil => exact absurd hx hpb
  | cons y ys => simp [comparePre]

/-- Witness for C7: `compare('1.2.3', '1.2.3-rc.1') = 1`. -/
theorem claim_C7_stable_above_prerelease_witness :
    compareVersions "1.2.3" "1.2.3-rc.1" = .ok 1 :=
  claim_C7_stable_above_prerelease "1.2.3" "1.2.3-rc.1"
    ⟨1, 2, 3, [], []⟩ ⟨1, 2, 3, [.str "rc", .num 1], []⟩
    (by decide) (by decide) rfl rfl rfl rfl (by decide)

/-- C10: a prerelease minted by `createDevVersion` for channel
dev/alpha/beta/rc is classified back to that same channel by
`getReleaseType`. -/
theorem claim_C10_mint_classify_roundtrip (v : String) (ts : Nat) :
    (∀ out, createDevVersion v "dev" ts = .ok out → getReleaseType out = .dev) ∧
    (∀ out, createDevVersion v "alpha" ts = .ok out → getReleaseType out = .alpha) ∧
    (∀ out, createDevVersion v "beta" ts = .ok out → getReleaseType out = .beta) ∧
    (∀ out, createDevVersion v "rc" ts = .ok out → getReleaseType out = .rc) := by
  have core : ∀ (suffix : String) (out : String), '-' ∉ suffix.data →
      createDevVersion v suffix ts = .ok out →
      ∀ q : List Char,
        containsSub out ⟨'-' :: q⟩ =
          leadsWith q (suffix.data ++ '.' :: natChars ts) := by
    intro suffix out hsuf h q
    simp only [createDevVersion] at h
    cases hp : semverParse (stripLeadingV v) with
    | none => rw [hp] at h; exact absurd h (by simp)
    | some parsed =>
      rw [hp] at h
      simp only [Except.ok.injEq] at h
      subst h
      show hasSub ('-' :: q) _ = _
      have hB : '-' ∉ suffix.data ++ '.' :: natChars ts := by
        intro hm
        rcases List.mem_append.mp hm with hm | hm
        · exact hsuf hm
        · rcases List.mem_cons.mp hm with hm | hm
          · exact absurd hm.symm (by decide)
          · exact dash_not_mem_natChars ts hm
      have hA : '-' ∉ natChars parsed.major ++ '.' :: natChars parsed.minor ++
          '.' :: natChars parsed.patch := by
        intro hm
        rcases List.mem_append.mp hm with hm | hm
        · rcases List.mem_append.mp hm with hm | hm
          · exact dash_not_mem_natChars _ hm
          · rcases List.mem_cons.mp hm with hm | hm
            · exact absurd hm (by decide)
            · exact dash_not_mem_natChars _ hm
        · rcases List.mem_cons.mp hm with hm | hm
          · exact absurd hm (by decide)
          · exact dash_not_mem_natChars _ hm
      exact hasSub_dash q _ hB _ hA
  refine ⟨?_, ?_, ?_, ?_⟩ <;> intro out h
  · have hc := core "dev" out (by decide) h
    unfold getReleaseType
    rw [show ("-dev" : String) = ⟨'-' :: ['d', 'e', 'v']⟩ from rfl, hc]
    simp [leadsWith]
  · have hc := core "alpha" out (by decide) h
    unfold getReleaseType
    rw [show ("-dev" : String) = ⟨'-' :: ['d', 'e', 'v']⟩ from rfl, hc,
      show ("-alpha" : String) = ⟨'-' :: ['a', 'l', 'p', 'h', 'a']⟩ from rfl, hc]
    simp [leadsWith]
  · have hc := core "beta" out (by decide) h
    unfold getReleaseType
    rw [show ("-dev" : String) = ⟨'-' :: ['d', 'e', 'v']⟩ from rfl, hc,
      show ("-alpha" : String) = ⟨'-' :: ['a', 'l', 'p', 'h', 'a']⟩ from rfl, hc,
      show ("-beta" : String) = ⟨'-' :: ['b', 'e', 't', 'a']⟩ from rfl, hc]
    simp [leadsWith]
  · have hc := core "rc" out (by decide) h
    unfold getReleaseType
    rw [show ("-dev" : String) = ⟨'-' :: ['d', 'e', 'v']⟩ from rfl, hc,
      show ("-alpha" : String) = ⟨'-' :: ['a', 'l', 'p', 'h', 'a']⟩ from rfl, hc,
      show ("-beta" : String) = ⟨'-' :: ['b', 'e', 't', 'a']⟩ from rfl, hc,
      show ("-rc" : String) = ⟨'-' :: ['r', 'c']⟩ from rfl, hc]
    simp [leadsWith]

/-- Witness for C10: minting an alpha prerelease of `1.2.3` at a concrete
timestamp and classifying it back gives alpha. -/
theorem claim_C10_mint_classify_roundtrip_witness :
    createDevVersion "1.2.3" "alpha" 20260131153000 =
      .ok "1.2.3-alpha.20260131153000" ∧
    getReleaseType "1.2.3-alpha.20260131153000" = .alpha := by
  have h : createDevVersion "1.2.3" "alpha" 20260131153000 =
      .ok "1.2.3-alpha.20260131153000" := by
    simp only [createDevVersion]
    rw [show semverParse (stripLeadingV "1.2.3") = some ⟨1, 2, 3, [], []⟩ from
      by decide]
    exact congrArg Except.ok (by decide)
  exact ⟨h, (claim_C10_mint_classify_roundtrip "1.2.3" 20260131153000).2.1 _ h⟩

/-! ### Theorems about the cleanup selection and classification -/

theorem data_append (a b : String) : (a ++ b).data = a.data ++ b.data :=
  rfl

theorem mk_data (s : String) : (⟨s.data⟩ : String) = s :=
  rfl

theorem leadsWith_append_self : ∀ (l m : List Char), leadsWith l (l ++ m) = true
  | [], _ => rfl
  | c :: cs, m => by
    rw [List.cons_append, leadsWith, leadsWith_append_self cs m]
    simp

theorem length_insertByPublishedDesc (x : ReleaseInfo) :
    ∀ (l : List ReleaseInfo),
      (insertByPublishedDesc x l).length = l.length + 1
  | [] => rfl
  | y :: ys => by
    rw [insertByPublishedDesc]
    split
    · rw [List.length_cons, length_insertByPublishedDesc x ys, List.length_cons]
    · rfl

theorem length_sortByPublishedDesc :
    ∀ (l : List ReleaseInfo), (sortByPublishedDesc l).length = l.length
  | [] => rfl
  | x :: xs => by
    show (insertByPublishedDesc x (sortByPublishedDesc xs)).length = _
    rw [length_insertByPublishedDesc, length_sortByPublishedDesc xs,
      List.length_cons]

theorem mem_insertByPublishedDesc {x y : ReleaseInfo} :
    ∀ (l : List ReleaseInfo),
      (y ∈ insertByPublishedDesc x l ↔ y = x ∨ y ∈ l)
  | [] => by simp [insertByPublishedDesc]
  | z :: zs => by
    rw [insertByPublishedDesc]
    split
    · rw [List.mem_cons, mem_insertByPublishedDesc zs, List.mem_cons]
      tauto
    · rw [List.mem_cons, List.mem_cons]

theorem mem_sortByPublishedDesc {y : ReleaseInfo} :
    ∀ (l : List ReleaseInfo), (y ∈ sortByPublishedDesc l ↔ y ∈ l)
  | [] => Iff.rfl
  | x :: xs => by
    show y ∈ insertByPublishedDesc x (sortByPublishedDesc xs) ↔ _
    rw [mem_insertByPublishedDesc, mem_sortByPublishedDesc xs,
      List.mem_cons]

/-- C5: `getReleasesToCleanup` filters to the requested release type, sorts
by recency descending and returns everything beyond the first `keep`;
`keep = 0` always yields the empty list, as does a matching set of size at
most `keep`; and every selected release classifies to the requested type. -/
theorem claim_C5_selectForCleanup (releases : List ReleaseInfo)
    (ty : ReleaseType) (tagPre : String) (keep : Nat) :
    (keep = 0 → getReleasesToCleanup releases ty tagPre keep = []) ∧
    ((releases.filter
        (fun r => getReleaseType (stripTagPre tagPre r.tagName) == ty)).length
          ≤ keep →
      getReleasesToCleanup releases ty tagPre keep = []) ∧
    (keep ≠ 0 →
      getReleasesToCleanup releases ty tagPre keep =
        (sortByPublishedDesc (releases.filter
          (fun r => getReleaseType (stripTagPre tagPre r.tagName) == ty))).drop
            keep) ∧
    (∀ r ∈ getReleasesToCleanup releases ty tagPre keep,
      getReleaseType (stripTagPre tagPre r.tagName) = ty) := by
  refine ⟨?_, ?_, ?_, ?_⟩
  · intro h
    subst h
    simp [getReleasesToCleanup]
  · intro h
    unfold getReleasesToCleanup
    rw [if_pos]
    simp only [Bool.or_eq_true, beq_iff_eq, decide_eq_true_eq]
    exact Or.inr (by rw [length_sortByPublishedDesc]; exact h)
  · intro h
    simp only [getReleasesToCleanup]
    split <;> rename_i hc
    · simp only [Bool.or_eq_true, beq_iff_eq, decide_eq_true_eq] at hc
      rcases hc with hc | hc
      · exact absurd hc h
      · exact (List.drop_eq_nil_of_le hc).symm
    · rfl
  · intro r hr
    simp only [getReleasesToCleanup] at hr
    split at hr
    · exact absurd hr (List.not_mem_nil r)
    · have hmem : r ∈ sortByPublishedDesc (releases.filter
          (fun r => getReleaseType (stripTagPre tagPre r.tagName) == ty)) :=
        List.drop_subset _ _ hr
      have := (List.mem_filter.mp ((mem_sortByPublishedDesc _).mp hmem)).2
      simpa using this

/-- Witness for C5: five stable releases `v1.0.0..v1.0.4` (newest last)
with `keep = 2` select exactly the three oldest, oldest-last. -/
theorem claim_C5_selectForCleanup_witness :
    getReleasesToCleanup
      [⟨0, "v1.0.0", 0, false⟩, ⟨1, "v1.0.1", 1, false⟩,
       ⟨2, "v1.0.2", 2, false⟩, ⟨3, "v1.0.3", 3, false⟩,
       ⟨4, "v1.0.4", 4, false⟩] .stable "v" 2 =
    [⟨2, "v1.0.2", 2, false⟩, ⟨1, "v1.0.1", 1, false⟩,
     ⟨0, "v1.0.0", 0, false⟩] := by
  rw [(claim_C5_selectForCleanup
    [⟨0, "v1.0.0", 0, false⟩, ⟨1, "v1.0.1", 1, false⟩,
     ⟨2, "v1.0.2", 2, false⟩, ⟨3, "v1.0.3", 3, false⟩,
     ⟨4, "v1.0.4", 4, false⟩] .stable "v" 2).2.2.1 (by decide)]
  decide

/-- C6 counterexample: with the adversarial tag prefix `1.2.3-d`, the bare
version string `1.2.3-dev.1` classifies as stable (the prefix strip eats
part of the marker) while the prefixed tag classifies as dev, so the
classification is not always the same for the prefixed tag and the bare
version string. -/
theorem claim_C6_classify_counterexample :
    classify ("1.2.3-d" ++ "1.2.3-dev.1") "1.2.3-d" = .dev ∧
    classify "1.2.3-dev.1" "1.2.3-d" = .stable ∧
    classify ("1.2.3-d" ++ "1.2.3-dev.1") "1.2.3-d" ≠
      classify "1.2.3-dev.1" "1.2.3-d" := by
  decide

/-- C6 (amended): `classify` strips the tag prefix and then tests the
substring markers in priority order dev > alpha > beta > rc, first match
winning, else stable; the spec's two examples hold; and the classification
agrees between the prefixed tag and the bare version string whenever the
bare version string does not itself start with the tag prefix. -/
theorem claim_C6_classify_amended (versionOrTag tagPre : String) :
    (classify versionOrTag tagPre = .dev ↔
      containsSub (stripTagPre tagPre versionOrTag) "-dev" = true) ∧
    (classify versionOrTag tagPre = .alpha ↔
      (containsSub (stripTagPre tagPre versionOrTag) "-alpha" = true ∧
       containsSub (stripTagPre tagPre versionOrTag) "-dev" = false)) ∧
    (classify versionOrTag tagPre = .beta ↔
      (containsSub (stripTagPre tagPre versionOrTag) "-beta" = true ∧
       containsSub (stripTagPre tagPre versionOrTag) "-alpha" = false ∧
       containsSub (stripTagPre tagPre versionOrTag) "-dev" = false)) ∧
    (classify versionOrTag tagPre = .rc ↔
      (containsSub (stripTagPre tagPre versionOrTag) "-rc" = true ∧
       containsSub (stripTagPre tagPre versionOrTag) "-beta" = false ∧
       containsSub (stripTagPre tagPre versionOrTag) "-alpha" = false ∧
       containsSub (stripTagPre tagPre versionOrTag) "-dev" = false)) ∧
    (classify versionOrTag tagPre = .stable ↔
      (containsSub (stripTagPre tagPre versionOrTag) "-dev" = false ∧
       containsSub (stripTagPre tagPre versionOrTag) "-alpha" = false ∧
       containsSub (stripTagPre tagPre versionOrTag) "-beta" = false ∧
       containsSub (stripTagPre tagPre versionOrTag) "-rc" = false)) ∧
    (classify "1.2.3-rc.1" "v" = .rc ∧ classify "v1.2.3" "v" = .stable) ∧
    (leadsWith tagPre.data versionOrTag.data = false →
      classify (tagPre ++ versionOrTag) tagPre = classify versionOrTag tagPre) := by
  refine ⟨?_, ?_, ?_, ?_, ?_, ⟨by decide, by decide⟩, ?_⟩
  · unfold classify getReleaseType
    split_ifs <;> simp_all
  · unfold classify getReleaseType
    split_ifs <;> simp_all
  · unfold classify getReleaseType
    split_ifs <;> simp_all
  · unfold classify getReleaseType
    split_ifs <;> simp_all
  · unfold classify getReleaseType
    split_ifs <;> simp_all
  · intro h
    have h1 : stripTagPre tagPre (tagPre ++ versionOrTag) = versionOrTag := by
      unfold stripTagPre
      rw [if_pos (by rw [data_append]; exact leadsWith_append_self _ _)]
      rw [data_append, List.drop_left, mk_data]
    have h2 : stripTagPre tagPre versionOrTag = versionOrTag := by
      unfold stripTagPre
      rw [if_neg (by rw [h]; exact Bool.false_ne_true)]
    unfold classify
    rw [h1, h2]

/-- Witness for C6 (amended): `1.2.3-rc.1` does not start with the prefix
`v`, so prefixed-tag and bare-version classification agree there. -/
theorem claim_C6_classify_amended_witness :
    leadsWith "v".data "1.2.3-rc.1".data = false ∧
    classify ("v" ++ "1.2.3-rc.1") "v" = classify "1.2.3-rc.1" "v" :=
  ⟨by decide,
   (claim_C6_classify_amended "1.2.3-rc.1" "v").2.2.2.2.2.2 (by decide)⟩

/-! ### Theorems about Cargo workspace inheritance -/

/-- Any root returned by the bounded walk is one of the first `fuel`
ancestors' manifests and contains the `[workspace.package]` marker. -/
theorem findWorkspaceRootGo_spec (fs : FileSys) :
    ∀ (fuel : Nat) (dir rootPath : List String),
      findWorkspaceRootGo fs fuel dir = some rootPath →
      (∃ i < fuel, rootPath = (dirParent^[i] dir) ++ [cargoManifestName]) ∧
      ∃ rc, fs rootPath = some rc ∧
        containsSub rc "[workspace.package]" = true := by
  intro fuel
  induction fuel with
  | zero => intro dir rootPath h; exact absurd h (by simp [findWorkspaceRootGo])
  | succ fuel ih =>
    intro dir rootPath h
    simp only [findWorkspaceRootGo] at h
    split at h <;> rename_i hfound
    · simp only [Option.some.injEq] at h
      subst h
      refine ⟨⟨0, by omega, rfl⟩, ?_⟩
      revert hfound
      cases hfs : fs (dir ++ [cargoManifestName]) with
      | none => simp
      | some content => exact fun hc => ⟨content, rfl, hc⟩
    · split at h
      · exact absurd h (by simp)
      · obtain ⟨⟨i, hi, hroot⟩, hrc⟩ := ih (dirParent dir) rootPath h
        refine ⟨⟨i + 1, by omega, ?_⟩, hrc⟩
        rw [Function.iterate_succ_apply]
        exact hroot

/-- C2: for a member manifest declaring `version.workspace = true` (with no
version-file override, not in dry-run), `readVersion` resolves the version
from the workspace root found by the bounded parent walk; the root is a
strict ancestor's manifest within 10 levels carrying `[workspace.package]`
and is never the member manifest itself; `writeVersion` rewrites only the
root file, leaving every other file — the member manifest in particular —
untouched; and when no root exists within the bound both operations return
an error. -/
theorem claim_C2_workspace_inheritance (fs : FileSys) (ctx : EcoCtx)
    (mc : String) (newVer : String)
    (hdry : ctx.dryRun = false)
    (hvf : ctx.versionFile = none)
    (hmc : fs (ctx.path ++ [cargoManifestName]) = some mc)
    (hinh : usesWorkspaceInheritance mc = true) :
    (∀ rootPath rc v, findWorkspaceRoot fs ctx.path = some rootPath →
        fs rootPath = some rc → extractWorkspaceVersion rc = some v →
        cargoReadVersion fs ctx = .ok v) ∧
    (∀ rootPath, findWorkspaceRoot fs ctx.path = some rootPath →
        rootPath ≠ ctx.path ++ [cargoManifestName] ∧
        (∃ i < 10, rootPath =
          (dirParent^[i] (dirParent ctx.path)) ++ [cargoManifestName]) ∧
        ∃ rc, fs rootPath = some rc ∧
          containsSub rc "[workspace.package]" = true) ∧
    (∀ rootPath rc fs', findWorkspaceRoot fs ctx.path = some rootPath →
        fs rootPath = some rc →
        cargoWriteVersion fs ctx newVer = .ok fs' →
        fs' rootPath = some (cargoUpdateVersion rc newVer) ∧
        (∀ q, q ≠ rootPath → fs' q = fs q) ∧
        fs' (ctx.path ++ [cargoManifestName]) = some mc) ∧
    (findWorkspaceRoot fs ctx.path = none →
        (∃ e, cargoReadVersion fs ctx = .error e) ∧
        (∃ e, cargoWriteVersion fs ctx newVer = .error e)) := by
  have hman : getManifestPath ctx = ctx.path ++ [cargoManifestName] := by
    unfold getManifestPath
    rw [hvf]
  have hnotroot : ∀ rootPath, findWorkspaceRoot fs ctx.path = some rootPath →
      rootPath ≠ ctx.path ++ [cargoManifestName] := by
    intro rootPath hroot heq
    obtain ⟨_, rc, hrc, hmarker⟩ := findWorkspaceRootGo_spec fs 10 _ _ hroot
    rw [heq, hmc] at hrc
    obtain rfl : mc = rc := by injection hrc
    have : containsSub mc "[workspace.package]" = false := by
      have := hinh
      unfold usesWorkspaceInheritance at this
      simp only [Bool.and_eq_true, Bool.not_eq_true'] at this
      exact this.2
    rw [this] at hmarker
    exact Bool.false_ne_true hmarker
  refine ⟨?_, ?_, ?_, ?_⟩
  · intro rootPath rc v hroot hrc hv
    simp only [cargoReadVersion, hman, hmc, hinh, if_true, hroot, hrc, hv]
  · intro rootPath hroot
    obtain ⟨hanc, hrc⟩ := findWorkspaceRootGo_spec fs 10 _ _ hroot
    exact ⟨hnotroot rootPath hroot, hanc, hrc⟩
  · intro rootPath rc fs' hroot hrc hw
    simp only [cargoWriteVersion, hdry, Bool.false_eq_true, if_false, hman,
      hmc, hinh, if_true, hroot, hrc] at hw
    simp only [Except.ok.injEq] at hw
    subst hw
    refine ⟨?_, ?_, ?_⟩
    · simp [fsWrite]
    · intro q hq
      simp [fsWrite, hq]
    · have hne := (hnotroot rootPath hroot).symm
      simp only [fsWrite]
      rw [if_neg (fun h => hne h)]
      exact hmc
  · intro hroot
    have h1 : cargoReadVersion fs ctx = .error ("Crate at " ++
        renderPath ctx.path ++
        " uses version.workspace = true but no workspace root Cargo.toml found") := by
      simp only [cargoReadVersion, hman, hmc, hinh, if_true, hroot]
    have h2 : cargoWriteVersion fs ctx newVer = .error ("Crate at " ++
        renderPath ctx.path ++
        " uses version.workspace = true but no workspace root Cargo.toml found") := by
      simp only [cargoWriteVersion, hdry, Bool.false_eq_true, if_false, hman,
        hmc, hinh, if_true, hroot]
    exact ⟨⟨_, h1⟩, ⟨_, h2⟩⟩

/-- Witness for C2 on the concrete two-file workspace: the member reads
`3.0.0` from the root, and writing `4.0.0` rewrites only the root file
while the member manifest keeps its inheritance declaration. -/
theorem claim_C2_workspace_inheritance_witness :
    cargoReadVersion fsEx ctxEx = .ok "3.0.0" ∧
    (∃ fs', cargoWriteVersion fsEx ctxEx "4.0.0" = .ok fs' ∧
      fs' ["ws", "Cargo.toml"] =
        some "[workspace.package]\nversion = \"4.0.0\"\n" ∧
      fs' ["ws", "member", "Cargo.toml"] = some memberToml) := by
  have h := claim_C2_workspace_inheritance fsEx ctxEx memberToml "4.0.0"
    rfl rfl (by decide) (by decide)
  have hroot : findWorkspaceRoot fsEx ctxEx.path = some ["ws", "Cargo.toml"] := by
    decide
  have hrc : fsEx ["ws", "Cargo.toml"] = some rootToml := by decide
  have hw : cargoWriteVersion fsEx ctxEx "4.0.0" =
      .ok (fsWrite fsEx ["ws", "Cargo.toml"]
        (cargoUpdateVersion rootToml "4.0.0")) := by rfl
  obtain ⟨hread, _, hwrite, _⟩ := h
  refine ⟨hread _ rootToml "3.0.0" hroot hrc (by decide), ?_⟩
  refine ⟨_, hw, ?_, ?_⟩
  · have := (hwrite _ rootToml _ hroot hrc hw).1
    rw [this]
    rw [show cargoUpdateVersion rootToml "4.0.0" =
      "[workspace.package]\nversion = \"4.0.0\"\n" from by decide]
  · exact (hwrite _ rootToml _ hroot hrc hw).2.2

/-! ### Theorems about the effectful cleanup run -/

theorem foldl_cleanupReleasesStep (eff : CleanupEffects) :
    ∀ (toDel : List ReleaseInfo) (acc : CleanupResult × List String),
      toDel.foldl (cleanupReleasesStep eff false) acc =
        ({ acc.1 with
            releasesDeleted := acc.1.releasesDeleted +
              (toDel.filter (fun x => isOkExc (eff.deleteRelease x.id))).length,
            warnings := acc.1.warnings ++ toDel.filterMap (relFailMsg eff) },
         acc.2 ++ toDel.filterMap (relFailMsg eff))
  | [], acc => by simp
  | x :: xs, acc => by
    rw [List.foldl_cons, foldl_cleanupReleasesStep eff xs]
    cases h : eff.deleteRelease x.id with
    | ok u =>
      simp [cleanupReleasesStep, h, relFailMsg, isOkExc]
      omega
    | error e =>
      simp [cleanupReleasesStep, h, relFailMsg, isOkExc, List.append_assoc]

theorem foldl_cleanupTagsStep (eff : CleanupEffects) :
    ∀ (tags : List String) (acc : CleanupResult × List String),
      tags.foldl (cleanupTagsStep eff false) acc =
        ({ acc.1 with tagsDeleted := acc.1.tagsDeleted + tags.length },
         acc.2 ++ tags.filterMap (tagRemoteFailMsg eff))
  | [], acc => by simp
  | t :: ts, acc => by
    rw [List.foldl_cons, foldl_cleanupTagsStep eff ts]
    cases h : eff.pushDeleteTag t with
    | ok u =>
      simp [cleanupTagsStep, deleteTag, h, tagRemoteFailMsg]
      omega
    | error e =>
      simp [cleanupTagsStep, deleteTag, h, tagRemoteFailMsg,
        List.append_assoc]
      omega

theorem foldl_unpubPkgStep_supported (registry : String → Option EcoImpl)
    (toDel : List ReleaseInfo) (r : ReleaseInfo) (v : String) :
    ∀ (pkgs : List PkgConfig),
      (∀ pkg ∈ pkgs, ∃ f, registry pkg.ecosystem = some ⟨true, some f⟩) →
      ∀ (acc : CleanupResult × List String),
        pkgs.foldl (unpubPkgStep registry false toDel r v) acc =
          ({ acc.1 with
              packagesUnpublished := acc.1.packagesUnpublished +
                (pkgs.filter (unpubSucceeds registry false v)).length,
              warnings := acc.1.warnings ++
                pkgs.filterMap (unpubFailMsg registry false v) },
           acc.2 ++ pkgs.filterMap (unpubFailMsg registry false v))
  | [], _, acc => by simp
  | pkg :: pkgs, hall, acc => by
    obtain ⟨f, hf⟩ := hall pkg (List.mem_cons_self _ _)
    have hrest := fun p hp => hall p (List.mem_cons_of_mem _ hp)
    rw [List.foldl_cons,
      foldl_unpubPkgStep_supported registry toDel r v pkgs hrest]
    cases h : f ⟨pkg.path, pkg.versionFile, false⟩ v with
    | ok success =>
      cases success with
      | true =>
        simp [unpubPkgStep, hf, h, unpubSucceeds, unpubFailMsg, unpubOutcome]
        omega
      | false =>
        simp [unpubPkgStep, hf, h, unpubSucceeds, unpubFailMsg, unpubOutcome]
    | error e =>
      simp [unpubPkgStep, hf, h, unpubSucceeds, unpubFailMsg, unpubOutcome,
        List.append_assoc]

theorem foldl_unpubOuter_supported (registry : String → Option EcoImpl)
    (toDel : List ReleaseInfo) (tagPre : String) (pkgs : List PkgConfig)
    (hall : ∀ pkg ∈ pkgs, ∃ f, registry pkg.ecosystem = some ⟨true, some f⟩) :
    ∀ (rs : List ReleaseInfo) (acc : CleanupResult × List String),
      rs.foldl (fun acc r =>
          pkgs.foldl
            (unpubPkgStep registry false toDel r
              (stripTagPre tagPre r.tagName)) acc) acc =
        ({ acc.1 with
            packagesUnpublished := acc.1.packagesUnpublished +
              (rs.map (fun r => (pkgs.filter (unpubSucceeds registry false
                (stripTagPre tagPre r.tagName))).length)).sum,
            warnings := acc.1.warnings ++
              (rs.map (fun r => pkgs.filterMap (unpubFailMsg registry false
                (stripTagPre tagPre r.tagName)))).flatten },
         acc.2 ++ (rs.map (fun r => pkgs.filterMap (unpubFailMsg registry false
           (stripTagPre tagPre r.tagName)))).flatten)
  | [], acc => by simp
  | r :: rs, acc => by
    rw [List.foldl_cons,
      foldl_unpubOuter_supported registry toDel tagPre pkgs hall rs,
      foldl_unpubPkgStep_supported registry toDel r
        (stripTagPre tagPre r.tagName) pkgs hall acc]
    simp [List.append_assoc, Nat.add_assoc]

theorem indexOf_self_beq_zero {α} [BEq α] [LawfulBEq α] (a : α) (l : List α) :
    (((a :: l).indexOf a) == 0) = true := by
  simp [List.indexOf_cons, beq_self_eq_true]

theorem indexOf_cons_beq_zero_eq_false {α} [BEq α] [LawfulBEq α] {a b : α}
    (h : a ≠ b) (l : List α) : (((b :: l).indexOf a) == 0) = false := by
  have hb : (b == a) = false := beq_eq_false_iff_ne.mpr (Ne.symm h)
  simp [List.indexOf_cons, hb]

theorem foldl_unpubPkgStep_unsupported (registry : String → Option EcoImpl)
    (d : Bool) (toDel : List ReleaseInfo) (r : ReleaseInfo) (v : String) :
    ∀ (pkgs : List PkgConfig),
      (∀ pkg ∈ pkgs, pkg.ecosystem ∈ unsupportedEcosystems ∧
        ∃ eco, registry pkg.ecosystem = some eco ∧
          (eco.supportsUnpublish = false ∨ eco.unpublish = none)) →
      ∀ (acc : CleanupResult × List String),
        pkgs.foldl (unpubPkgStep registry d toDel r v) acc =
          if (toDel.indexOf r == 0) = true then
            ({ acc.1 with
                warnings := acc.1.warnings ++
                  pkgs.map
                    (fun p => getUnsupportedUnpublishMessage p.ecosystem) },
             acc.2 ++
               pkgs.map (fun p => getUnsupportedUnpublishMessage p.ecosystem))
          else acc
  | [], _, acc => by split <;> simp
  | pkg :: rest, hun, acc => by
    obtain ⟨hmem, eco, heco, hcap⟩ := hun pkg (List.mem_cons_self _ _)
    have hrest := fun p hp => hun p (List.mem_cons_of_mem _ hp)
    have hstep : unpubPkgStep registry d toDel r v acc pkg =
        if (toDel.indexOf r == 0) = true then
          ({ acc.1 with
              warnings := acc.1.warnings ++
                [getUnsupportedUnpublishMessage pkg.ecosystem] },
           acc.2 ++ [getUnsupportedUnpublishMessage pkg.ecosystem])
        else acc := by
      simp only [unpubPkgStep, heco]
      have hguard : (!eco.supportsUnpublish || eco.unpublish.isNone) = true := by
        rcases hcap with h | h
        · rw [h]; rfl
        · rw [h]; simp
      rw [if_pos hguard, if_pos (contains_iff_mem.mpr hmem)]
    rw [List.foldl_cons, hstep]
    split <;> rename_i hidx
    · rw [foldl_unpubPkgStep_unsupported registry d toDel r v rest hrest,
        if_pos hidx]
      simp
    · rw [foldl_unpubPkgStep_unsupported registry d toDel r v rest hrest,
        if_neg hidx]

theorem foldl_unpubOuter_unsupported_const (registry : String → Option EcoImpl)
    (d : Bool) (tagPre : String) (toDel : List ReleaseInfo)
    (pkgs : List PkgConfig)
    (hun : ∀ pkg ∈ pkgs, pkg.ecosystem ∈ unsupportedEcosystems ∧
      ∃ eco, registry pkg.ecosystem = some eco ∧
        (eco.supportsUnpublish = false ∨ eco.unpublish = none)) :
    ∀ (rs : List ReleaseInfo),
      (∀ r ∈ rs, (toDel.indexOf r == 0) = false) →
      ∀ (acc : CleanupResult × List String),
        rs.foldl (fun acc r =>
          pkgs.foldl (unpubPkgStep registry d toDel r
            (stripTagPre tagPre r.tagName)) acc) acc = acc
  | [], _, _ => rfl
  | r :: rs, hidx, acc => by
    rw [List.foldl_cons,
      foldl_unpubPkgStep_unsupported registry d toDel r
        (stripTagPre tagPre r.tagName) pkgs hun,
      if_neg (by rw [hidx r (List.mem_cons_self _ _)]; exact Bool.false_ne_true)]
    exact foldl_unpubOuter_unsupported_const registry d tagPre toDel pkgs hun
      rs (fun p hp => hidx p (List.mem_cons_of_mem _ hp)) acc

/-- C8 counterexample: a cleanup run whose remote-tag deletion fails (the
push oracle errors) returns an empty `warnings` list — the failure is
reported only through the warn logger — and the tag is even counted as
deleted, so not every artifact-deletion failure is recorded in the
returned `CleanupResult.warnings`. -/
theorem claim_C8_besteffort_counterexample :
    (cleanupReleaseType effC8 [] .dev ⟨true, false, false, 1⟩ "v"
      ⟨false, none, none⟩).1.warnings = [] ∧
    (cleanupReleaseType effC8 [] .dev ⟨true, false, false, 1⟩ "v"
      ⟨false, none, none⟩).2 =
      ["Failed to delete remote tag v1.0.0-dev.1 (may not exist)"] ∧
    (cleanupReleaseType effC8 [] .dev ⟨true, false, false, 1⟩ "v"
      ⟨false, none, none⟩).1.tagsDeleted = 1 := by
  decide

/-- C8 (amended): cleanup is best-effort and non-throwing.  For every
oracle behaviour: (a) a releases-only pass processes every selected
release, counts the successful deletions and records a warning in the
returned `CleanupResult` for each failed one; (b) a tags-only pass
processes every selected tag, failures to delete a remote tag being
caught and reported through the warn logger (not the warnings list) with
the tag still counted; (c) a published-only pass over packages whose
ecosystems all have the unpublish capability processes every
release-package pair, counts successful unpublishes and records a warning
for each failed one.  No failure aborts the remaining work. -/
theorem claim_C8_besteffort_amended (eff : CleanupEffects)
    (releases : List ReleaseInfo) (rt : ReleaseType) (tagPre : String)
    (keep : Nat) (pkgs : List PkgConfig) (registry : String → Option EcoImpl)
    (hall : ∀ pkg ∈ pkgs, ∃ f, registry pkg.ecosystem = some ⟨true, some f⟩) :
    (cleanupReleaseType eff releases rt ⟨false, true, false, keep⟩ tagPre
        ⟨false, none, none⟩ =
      (⟨0, ((getReleasesToCleanup releases rt tagPre keep).filter
            (fun x => isOkExc (eff.deleteRelease x.id))).length, 0,
        (getReleasesToCleanup releases rt tagPre keep).filterMap
          (relFailMsg eff)⟩,
       (getReleasesToCleanup releases rt tagPre keep).filterMap
         (relFailMsg eff))) ∧
    (cleanupReleaseType eff releases rt ⟨true, false, false, keep⟩ tagPre
        ⟨false, none, none⟩ =
      (⟨(getTagsToCleanup (getTagsForType eff rt tagPre) keep).length, 0, 0,
        []⟩,
       (getTagsToCleanup (getTagsForType eff rt tagPre) keep).filterMap
         (tagRemoteFailMsg eff))) ∧
    (cleanupReleaseType eff releases rt ⟨false, false, true, keep⟩ tagPre
        ⟨false, some pkgs, some registry⟩ =
      (⟨0, 0,
        ((getReleasesToCleanup releases rt tagPre keep).map
          (fun r => (pkgs.filter (unpubSucceeds registry false
            (stripTagPre tagPre r.tagName))).length)).sum,
        ((getReleasesToCleanup releases rt tagPre keep).map
          (fun r => pkgs.filterMap (unpubFailMsg registry false
            (stripTagPre tagPre r.tagName)))).flatten⟩,
       ((getReleasesToCleanup releases rt tagPre keep).map
         (fun r => pkgs.filterMap (unpubFailMsg registry false
           (stripTagPre tagPre r.tagName)))).flatten)) := by
  refine ⟨?_, ?_, ?_⟩
  · simp only [cleanupReleaseType, Bool.not_false, Bool.not_true,
      Bool.and_false, Bool.false_and, Bool.false_eq_true, if_false, if_true,
      foldl_cleanupReleasesStep eff]
    simp
  · simp only [cleanupReleaseType, Bool.not_false, Bool.not_true,
      Bool.and_false, Bool.and_true, Bool.false_and, Bool.false_eq_true,
      if_false, if_true, foldl_cleanupTagsStep eff]
    simp
  · simp only [cleanupReleaseType, Bool.not_false, Bool.not_true,
      Bool.and_false, Bool.and_true, Bool.true_and, Bool.false_eq_true,
      if_false, if_true,
      foldl_unpubOuter_supported registry _ tagPre pkgs hall]
    simp

/-- Witness for C8 (amended) on concrete oracles: three stable releases
with `keep = 1` select two for deletion; deleting `v1.0.1` succeeds while
deleting `v1.0.0` fails, which is recorded as the only warning and does
not stop the count at zero. -/
theorem claim_C8_besteffort_amended_witness :
    cleanupReleaseType effC8 relsC8 .stable ⟨false, true, false, 1⟩ "v"
      ⟨false, none, none⟩ =
    (⟨0, 1, 0, ["Failed to delete release v1.0.0: boom"]⟩,
     ["Failed to delete release v1.0.0: boom"]) := by
  rw [(claim_C8_besteffort_amended effC8 relsC8 .stable "v" 1 []
    (fun _ => none) (by simp)).1]
  decide

/-- C9 counterexample: one cleanup run (`runCleanup`) with published
cleanup enabled for both dev and stable and a single cargo package emits
the cargo unsupported-unpublish warning twice — once per release type —
not exactly once per ecosystem per run. -/
theorem claim_C9_unsupported_counterexample :
    (runCleanup effC9 cfgC9 "v" ⟨false, some pkgsC9, some regC9⟩).1.warnings =
      [getUnsupportedUnpublishMessage "cargo",
       getUnsupportedUnpublishMessage "cargo"] ∧
    ((runCleanup effC9 cfgC9 "v"
        ⟨false, some pkgsC9, some regC9⟩).1.warnings.count
      (getUnsupportedUnpublishMessage "cargo") = 2) := by
  constructor
  · rfl
  · rfl

/-- C9 (amended): within one `cleanupReleaseType` pass with published
cleanup requested, packages whose ecosystems lack the unpublish capability
(and are in the known unsupported list) produce exactly one aggregated
ecosystem-specific warning per package — emitted while processing the
first selected release — independent of how many versions were selected
for deletion; a full run repeats this per release type. -/
theorem claim_C9_unsupported_amended (eff : CleanupEffects)
    (releases : List ReleaseInfo) (rt : ReleaseType) (tagPre : String)
    (keep : Nat) (d : Bool) (pkgs : List PkgConfig)
    (registry : String → Option EcoImpl)
    (hun : ∀ pkg ∈ pkgs, pkg.ecosystem ∈ unsupportedEcosystems ∧
      ∃ eco, registry pkg.ecosystem = some eco ∧
        (eco.supportsUnpublish = false ∨ eco.unpublish = none))
    (hne : getReleasesToCleanup releases rt tagPre keep ≠ [])
    (hnd : (getReleasesToCleanup releases rt tagPre keep).Nodup) :
    cleanupReleaseType eff releases rt ⟨false, false, true, keep⟩ tagPre
      ⟨d, some pkgs, some registry⟩ =
    (⟨0, 0, 0,
      pkgs.map (fun p => getUnsupportedUnpublishMessage p.ecosystem)⟩,
     pkgs.map (fun p => getUnsupportedUnpublishMessage p.ecosystem)) := by
  simp only [cleanupReleaseType, Bool.not_false, Bool.not_true, Bool.and_true,
    Bool.and_false, Bool.true_and, Bool.false_eq_true, if_false, if_true]
  cases htd : getReleasesToCleanup releases rt tagPre keep with
  | nil => exact absurd htd hne
  | cons r0 rest =>
    rw [htd] at hnd
    have hnotmem : r0 ∉ rest := (List.nodup_cons.mp hnd).1
    rw [List.foldl_cons,
      foldl_unpubPkgStep_unsupported registry d (r0 :: rest) r0
        (stripTagPre tagPre r0.tagName) pkgs hun,
      if_pos (indexOf_self_beq_zero r0 rest),
      foldl_unpubOuter_unsupported_const registry d tagPre (r0 :: rest) pkgs
        hun rest
        (fun r hr => indexOf_cons_beq_zero_eq_false
          (fun he => hnotmem (by rw [← he]; exact hr)) rest)]
    simp

/-- Witness for C9 (amended): two dev versions are selected for deletion,
two cargo packages are configured, and the pass emits exactly two cargo
warnings — one per package, not one per selected version. -/
theorem claim_C9_unsupported_amended_witness :
    cleanupReleaseType effC9 relsDevC9 .dev ⟨false, false, true, 1⟩ "v"
      ⟨false, some pkgs2C9, some regC9⟩ =
    (⟨0, 0, 0,
      [getUnsupportedUnpublishMessage "cargo",
       getUnsupportedUnpublishMessage "cargo"]⟩,
     [getUnsupportedUnpublishMessage "cargo",
      getUnsupportedUnpublishMessage "cargo"]) := by
  have hun : ∀ pkg ∈ pkgs2C9, pkg.ecosystem ∈ unsupportedEcosystems ∧
      ∃ eco, regC9 pkg.ecosystem = some eco ∧
        (eco.supportsUnpublish = false ∨ eco.unpublish = none) := by
    intro pkg hpk
    have hcases : pkg = ⟨"a", "pa", "cargo", none⟩ ∨
        pkg = ⟨"b", "pb", "cargo", none⟩ := by
      simpa [pkgs2C9] using hpk
    rcases hcases with rfl | rfl <;>
      exact ⟨by decide, ⟨⟨false, none⟩, rfl, Or.inr rfl⟩⟩
  rw [claim_C9_unsupported_amended effC9 relsDevC9 .dev "v" 1 false pkgs2C9
    regC9 hun (by decide) (by decide)]
  rfl

end ReleasePilot
